import Mathlib

/-!
Shallow embedding of the ECG delineation core of the NeuroKit repository
(file src/neurokit2/ecg/ecg_delineate.py) and a verification of the frozen
claims about it.

Conventions of the embedding:
- signals are lists of exact rationals; the floating-point arithmetic of the
  source is embedded as exact rational arithmetic;
- Python and numpy one-dimensional slice semantics (negative indices counted
  from the end and clamped) are embedded by pySlice;
- the scipy find_peaks peak detector (strict local maxima with plateau
  midpoints, minimal height, minimal prominence with left and right bases)
  is embedded by localMaxima, findPeaksHP and the prominence helpers;
- undefined feature values (np.nan in the source) are embedded as none;
- Python exceptions (IndexError from indexing an empty selection,
  ValueError from max or argmax of an empty sequence and from unpacking an
  empty zip, NameError from reading a never-assigned variable) are embedded
  with Except PyErr;
- thresholds of the form weight * sqrt(mean(square(window))) are compared in
  squared form (value^2 against weight^2 * mean of squares), which is exactly
  equivalent for the nonnegative quantities being compared and keeps the
  embedding inside the rationals.
-/

namespace NeuroKit

/-- Error taxonomy of the Python exceptions that the delineation code can
raise: IndexError, ValueError, NameError (UnboundLocalError). -/
inductive PyErr where
  | indexError : PyErr
  | valueError : PyErr
  | nameError : PyErr
deriving DecidableEq, Repr

/-- Python slice-endpoint adjustment for a sequence of length n: a negative
endpoint counts from the end and is clamped at 0, a nonnegative endpoint is
clamped at n. -/
def pyAdj (n : ℕ) (i : ℤ) : ℕ :=
  if i < 0 then ((n : ℤ) + i).toNat else min i.toNat n

/-- Python and numpy slice xs[s:e] with step 1. -/
def pySlice (xs : List ℚ) (s e : ℤ) : List ℚ :=
  (xs.drop (pyAdj xs.length s)).take (pyAdj xs.length e - pyAdj xs.length s)

/-- List lookup with rational default 0, the form used throughout to read a
sample that the source guarantees to be in range. -/
def getQ (xs : List ℚ) (i : ℕ) : ℚ := xs.getD i 0

/-- Signed list lookup: negative positions read as 0 (only reached under
guards that make the position nonnegative). -/
def getQZ (xs : List ℚ) (i : ℤ) : ℚ := if 0 ≤ i then xs.getD i.toNat 0 else 0

/-- Python list indexing that raises IndexError when out of range. -/
def pyIdx {α : Type} (xs : List α) (i : ℕ) : Except PyErr α :=
  match xs.get? i with
  | some v => .ok v
  | none => .error .indexError

/-- Python max() of a rational sequence; ValueError on an empty sequence. -/
def pyMax (xs : List ℚ) : Except PyErr ℚ :=
  match xs.max? with
  | some m => .ok m
  | none => .error .valueError

/-- Python max() of an integer sequence; ValueError on an empty sequence. -/
def pyMaxZ (xs : List ℤ) : Except PyErr ℤ :=
  match xs.max? with
  | some m => .ok m
  | none => .error .valueError

/-- Python min() of an integer sequence; ValueError on an empty sequence. -/
def pyMinZ (xs : List ℤ) : Except PyErr ℤ :=
  match xs.min? with
  | some m => .ok m
  | none => .error .valueError

/-- numpy argmax: position of the first maximal element; ValueError on an
empty sequence. -/
def npArgmax (xs : List ℚ) : Except PyErr ℕ :=
  match xs.max? with
  | some m => .ok (xs.findIdx (fun v => decide (v = m)))
  | none => .error .valueError

/-- Scan forward over a plateau of equal values, as the inner loop of the
scipy local-maxima detector does (stops before position imax). -/
def plateauScan (x : List ℚ) (v : ℚ) (imax : ℕ) : ℕ → ℕ → ℕ
  | 0, ahead => ahead
  | fuel + 1, ahead =>
    if ahead < imax ∧ getQ x ahead = v then plateauScan x v imax fuel (ahead + 1)
    else ahead

/-- Main loop of the scipy local-maxima detector: a sample (or the midpoint
of a plateau of equal samples) strictly greater than its neighbours on both
sides is a local maximum; the first and last samples never are. -/
def localMaximaAux (x : List ℚ) (imax : ℕ) : ℕ → ℕ → List ℕ
  | 0, _ => []
  | fuel + 1, i =>
    if i < imax then
      if getQ x (i - 1) < getQ x i then
        let ahead := plateauScan x (getQ x i) imax (x.length + 1) (i + 1)
        if getQ x ahead < getQ x i then
          ((i + (ahead - 1)) / 2) :: localMaximaAux x imax fuel (ahead + 1)
        else localMaximaAux x imax fuel (i + 1)
      else localMaximaAux x imax fuel (i + 1)
    else []

/-- Indices of the local maxima of a sequence, in scipy find_peaks order. -/
def localMaxima (x : List ℚ) : List ℕ :=
  localMaximaAux x (x.length - 1) (x.length + 1) 1

/-- Left half of the scipy prominence computation for a peak with value v:
walk left while samples do not exceed v, tracking the running minimum and
its position (the left base). -/
def promLeft (x : List ℚ) (v : ℚ) : ℕ → ℤ → ℚ → ℕ → ℚ × ℕ
  | 0, _, lm, lb => (lm, lb)
  | fuel + 1, i, lm, lb =>
    if 0 ≤ i ∧ getQZ x i ≤ v then
      if getQZ x i < lm then promLeft x v fuel (i - 1) (getQZ x i) i.toNat
      else promLeft x v fuel (i - 1) lm lb
    else (lm, lb)

/-- Right half of the scipy prominence computation, walking right. -/
def promRight (x : List ℚ) (v : ℚ) : ℕ → ℕ → ℚ → ℕ → ℚ × ℕ
  | 0, _, rm, rb => (rm, rb)
  | fuel + 1, i, rm, rb =>
    if i < x.length ∧ getQ x i ≤ v then
      if getQ x i < rm then promRight x v fuel (i + 1) (getQ x i) i
      else promRight x v fuel (i + 1) rm rb
    else (rm, rb)

/-- Record for one retained peak of scipy find_peaks when the prominence
condition is requested: index, height, prominence, left and right bases. -/
structure FP where
  idx : ℕ
  height : ℚ
  prom : ℚ
  leftBase : ℕ
  rightBase : ℕ
deriving DecidableEq, Repr

/-- The scipy find_peaks pipeline with a minimal height and a minimal
prominence: local maxima, height filter first, then prominence filter, with
the peak data of the retained peaks. -/
def findPeaksHP (x : List ℚ) (hmin : ℚ) (pmin : ℚ) : List FP :=
  ((localMaxima x).filter (fun p => hmin ≤ getQ x p)).filterMap (fun p =>
    let l := promLeft x (getQ x p) (x.length + 2) (p : ℤ) (getQ x p) p
    let r := promRight x (getQ x p) (x.length + 2) p (getQ x p) p
    let prom := getQ x p - max l.1 r.1
    if pmin ≤ prom then some ⟨p, getQ x p, prom, l.2, r.2⟩ else none)

/-- Modelled from the spec: the repository function signal_zerocrossings
(module neurokit2.signal, not under src) locates, scanning left to right,
the indices immediately following a sign change, negative-to-positive or
positive-to-negative. -/
def signal_zerocrossings (x : List ℚ) : List ℕ :=
  (List.range x.length).filter (fun i =>
    0 < i ∧ ((getQ x (i - 1) < 0 ∧ 0 < getQ x i) ∨ (getQ x i < 0 ∧ 0 < getQ x (i - 1))))

/-- Mean of squares of a window (the square of its root-mean-square). -/
def meanSq (xs : List ℚ) : ℚ := (xs.foldl (fun a v => a + v * v) 0) / (xs.length : ℚ)

/-- Python int() cast of an exact rational: truncation toward zero. -/
def truncToZero (q : ℚ) : ℤ := if 0 ≤ q then q.floor else q.ceil

/-- Pointwise addition of two lists, the shorter one padded with zeros. -/
def listAddPad : List ℚ → List ℚ → List ℚ
  | [], ys => ys
  | xs, [] => xs
  | x :: xs, y :: ys => (x + y) :: listAddPad xs ys

/-- Accumulating pass of the full discrete convolution: for every kernel tap
with coefficient c at offset t, add the signal scaled by c and shifted by t. -/
def convolveAux (s : List ℚ) : List ℚ → ℕ → List ℚ → List ℚ
  | [], _, acc => acc
  | c :: ks, t, acc =>
    convolveAux s ks (t + 1)
      (if c = 0 then acc
       else listAddPad acc (List.replicate t 0 ++ s.map (fun v => c * v)))

/-- Full discrete convolution of a signal with a kernel, as
scipy.signal.convolve(mode=full): output length n + m - 1, entry i equal to
the sum over t of kernel t times signal (i - t). -/
def convolve (s k : List ℚ) : List ℚ :=
  convolveAux s k 0 (List.replicate (s.length + k.length - 1) 0)

/-- The causal time-shift correction of the decomposer: positions up to
length - td take the value td steps ahead, the last td positions keep their
values (Python slice assignment signal_f[:-timedelay] = signal_f[timedelay:]). -/
def timeshift (sf : List ℚ) (td : ℕ) : List ℚ :=
  sf.drop td ++ sf.drop (sf.length - td)

/-- Dilated low-pass filter bank of the decomposer at a given power:
coefficients 1/8, 3/8, 3/8, 1/8 separated by 2 ^ power - 1 zeros. -/
def hBanks (power : ℕ) : List ℚ :=
  [1 / 8] ++ List.replicate (2 ^ power - 1) 0 ++ [3 / 8]
    ++ List.replicate (2 ^ power - 1) 0 ++ [3 / 8]
    ++ List.replicate (2 ^ power - 1) 0 ++ [1 / 8]

/-- Dilated difference filter bank of the decomposer at a given power:
coefficients 2 and -2 separated by 2 ^ power - 1 zeros. -/
def gBanks (power : ℕ) : List ℚ :=
  [2] ++ List.replicate (2 ^ power - 1) 0 ++ [-2]

/-- Apply the H (smoothing) filter at a given power, with the time-shift
correction of 2 ^ power samples. -/
def applyHFilter (signal_i : List ℚ) (power : ℕ) : List ℚ :=
  timeshift (convolve signal_i (hBanks power)) (2 ^ power)

/-- Apply the G (difference) filter at a given power, with the time-shift
correction of 2 ^ power samples. -/
def applyGFilter (signal_i : List ℚ) (power : ℕ) : List ℚ :=
  timeshift (convolve signal_i (gBanks power)) (2 ^ power)

/-- Loop of the multiscale decomposer: at each degree record the detail
signal (G filter of the running residual) and continue with the smoothed
residual (H filter). -/
def multiscalesAux : ℕ → List ℚ → ℕ → List (List ℚ)
  | 0, _, _ => []
  | n + 1, inter, deg =>
    applyGFilter inter deg :: multiscalesAux n (applyHFilter inter deg) (deg + 1)

/-- The multiscale decomposer dwt_compute_multiscales: max_degree detail
signals, each truncated to the input length. -/
def dwt_compute_multiscales (ecg : List ℚ) (max_degree : ℕ) : List (List ℚ) :=
  (multiscalesAux max_degree ecg 0).map (fun row => row.take ecg.length)

/-- Degree compensation int(log2(sampling_rate / 250)); for rates at least
250 Hz the Python expression equals the base-2 logarithm of the integer
quotient, since floor of log2 of a real x at least 1 equals log2 of floor x. -/
def dwt_compensate_degree (sampling_rate : ℕ) : ℕ :=
  Nat.log2 (sampling_rate / 250)

/-- Resampling of one point index between rates, as one element of
dwt_resample_points: scale by desired rate over source rate and cast with
int(), truncating toward zero. -/
def dwt_resample_point (p : ℤ) (sampling_rate desired_sampling_rate : ℕ) : ℤ :=
  truncToZero ((p * desired_sampling_rate : ℚ) / (sampling_rate : ℚ))

/-- The function dwt_resample_points of the source: drop undefined (NaN)
entries, scale the remaining indices to the desired rate and truncate. -/
def dwt_resample_points (peaks : List (Option ℤ))
    (sampling_rate desired_sampling_rate : ℕ) : List ℤ :=
  (peaks.filterMap id).map (fun p => dwt_resample_point p sampling_rate desired_sampling_rate)

/-- Modelled from the spec: the repository collaborator signal_resample
(module neurokit2.signal, not under src) resamples a signal to a target
rate; embedded as index resampling with the nearest previous sample, output
length scaled by the ratio of the rates. At equal rates it is the identity. -/
def signal_resample (sig : List ℚ) (sampling_rate desired_sampling_rate : ℕ) : List ℚ :=
  (List.range (sig.length * desired_sampling_rate / sampling_rate)).map
    (fun i => sig.getD (i * sampling_rate / desired_sampling_rate) 0)

/-- Row access into the decomposition matrix; IndexError out of range. -/
def getRow (m : List (List ℚ)) (k : ℕ) : Except PyErr (List ℚ) :=
  pyIdx m k

/-- Python sequence[-1], an IndexError on an empty sequence. -/
def lastOrErr {α : Type} (xs : List α) : Except PyErr α :=
  match xs.getLast? with
  | some v => .ok v
  | none => .error .indexError

/-- Python sequence[0], an IndexError on an empty sequence. -/
def headOrErr {α : Type} (xs : List α) : Except PyErr α :=
  match xs.head? with
  | some v => .ok v
  | none => .error .indexError

/-- Morphology detection of the T/P peak search: for every pair of
consecutive retained extrema with a positive value followed by a negative
value, locate the first zero crossing between them (IndexError when the
crossing list is empty, as in the source). -/
def tpPairsAux (loc : List ℚ) : List ℕ → Except PyErr (List ℕ)
  | a :: b :: rest =>
    if 0 < getQ loc a ∧ getQ loc b < 0 then
      match signal_zerocrossings (pySlice loc (a : ℤ) (b : ℤ)) with
      | [] => .error .indexError
      | z :: _ => do
        let tail ← tpPairsAux loc (b :: rest)
        .ok ((z + a) :: tail)
    else tpPairsAux loc (b :: rest)
  | _ => .ok []

/-- One attribute branch of the T/P peak search of dwt_delinate_tp_peaks on
one R-R interval: slice the detail row to the search window; empty window
gives undefined; find local maxima of the absolute window above the
root-mean-square height (compared in squared form with squared weight w2);
discard candidates of magnitude not exceeding 0.025 times the window
maximum; prepend index 0 when the window starts positive; pair candidates
with a positive-then-negative sign and take the zero crossing; the first
crossing for T, the last for P; no pair gives undefined. -/
def dwtTpPeakStep (row : List ℚ) (s e : ℤ) (w2 : ℚ) (takeFirst : Bool) :
    Except PyErr (Option ℤ) :=
  let loc := pySlice row s e
  if loc.isEmpty then .ok none
  else do
    let peaks0 := (localMaxima (loc.map (fun v => |v|))).filter
      (fun p => w2 * meanSq loc ≤ (getQ loc p) ^ 2)
    let mx ← pyMax loc
    let peaks1 := peaks0.filter (fun p => (1 / 40 : ℚ) * mx < |getQ loc p|)
    let peaks2 := if 0 < getQ loc 0 then 0 :: peaks1 else peaks1
    let cands ← tpPairsAux loc peaks2
    match cands with
    | [] => .ok none
    | c :: cs => .ok (some (((if takeFirst then c else cs.getLastD c : ℕ) : ℤ) + s))

/-- Interval loop of dwt_delinate_tp_peaks over consecutive R-peak pairs. -/
def dwtTpPeaksAux (dwtmatr : List (List ℚ)) (deg_t deg_p : ℕ) (srch_bndry p_half : ℕ) :
    List (ℤ × ℤ) → Except PyErr (List (Option ℤ) × List (Option ℤ))
  | [] => .ok ([], [])
  | (r0, r1) :: rest => do
    let row_t ← getRow dwtmatr deg_t
    let t ← dwtTpPeakStep row_t (r0 + srch_bndry) (r1 - srch_bndry * 8) (1 / 16) true
    let row_p ← getRow dwtmatr deg_p
    let p ← dwtTpPeakStep row_p (r0 - p_half) (r0 - srch_bndry) (1 / 2500) false
    let tail ← dwtTpPeaksAux dwtmatr deg_t deg_p srch_bndry p_half rest
    .ok (t :: tail.1, p :: tail.2)

/-- The function dwt_delinate_tp_peaks of the source: per R-R interval,
search the T peak in the window from R plus the boundary to the next R
minus eight boundaries on the degree 3 plus compensation detail row (height
weight 0.25), and the P peak in the window from R minus half a second to R
minus the boundary on the degree 2 plus compensation row (height weight
0.02). The search boundary is int(0.9 * 0.05 * rate / 2) = 9 * rate / 400. -/
def dwt_delinate_tp_peaks (rpeaks : List ℤ) (dwtmatr : List (List ℚ))
    (sampling_rate : ℕ) : Except PyErr (List (Option ℤ) × List (Option ℤ)) :=
  let srch_bndry := 9 * sampling_rate / 400
  let degree_add := dwt_compensate_degree sampling_rate
  dwtTpPeaksAux dwtmatr (3 + degree_add) (2 + degree_add) srch_bndry
    (sampling_rate / 2) (rpeaks.zip rpeaks.tail)

/-- Loop of dwt_delinate_tp_onsets_offsets over the peak list: an undefined
peak appends an undefined onset and, by the continue statement, appends
nothing to the offsets; a defined peak appends exactly one onset (undefined
when the window has no ascending extremum or no sample below the threshold,
the IndexError branch of the source) and exactly one offset (likewise). -/
def dwtTpOnOffAux (dwtmatr : List (List ℚ)) (rowOn rowOff : ℕ) (durS durOffS : ℤ)
    (onW offW : ℚ) : List (Option ℤ) → Except PyErr (List (Option ℤ) × List (Option ℤ))
  | [] => .ok ([], [])
  | none :: rest => do
    let tail ← dwtTpOnOffAux dwtmatr rowOn rowOff durS durOffS onW offW rest
    .ok (none :: tail.1, tail.2)
  | some p :: rest => do
    let row ← getRow dwtmatr rowOn
    let loc := pySlice row (p - durS) p
    let onset : Option ℤ :=
      match (localMaxima loc).getLast? with
      | none => none
      | some m =>
        let eps := onW * getQ loc m
        match ((List.range m).filter (fun j => getQ loc j < eps)).getLast? with
        | none => none
        | some c => some ((c : ℤ) + (p - durS))
    let row2 ← getRow dwtmatr rowOff
    let loc2 := pySlice row2 p (p + durOffS)
    let offset : Option ℤ :=
      match (localMaxima (loc2.map Neg.neg)).head? with
      | none => none
      | some m =>
        let eps := -offW * getQ loc2 m
        match ((List.range (loc2.length - m)).filter
            (fun j => -(getQ loc2 (j + m)) < eps)).head? with
        | none => none
        | some c => some (((c + m : ℕ) : ℤ) + p)
    let tail ← dwtTpOnOffAux dwtmatr rowOn rowOff durS durOffS onW offW rest
    .ok (onset :: tail.1, offset :: tail.2)

/-- The function dwt_delinate_tp_onsets_offsets of the source, over the
degree 2 plus compensation detail row: the onset is the last sample below
onset_weight times the last ascending extremum of the onset window before
that extremum; the offset mirrors it after the peak on the negated row. -/
def dwt_delinate_tp_onsets_offsets (peaks : List (Option ℤ)) (dwtmatr : List (List ℚ))
    (sampling_rate : ℕ) (duration duration_offset onset_weight offset_weight : ℚ)
    (degree_onset degree_offset : ℕ) :
    Except PyErr (List (Option ℤ) × List (Option ℤ)) :=
  let degree := dwt_compensate_degree sampling_rate
  dwtTpOnOffAux dwtmatr (degree_onset + degree) (degree_offset + degree)
    (truncToZero (duration * sampling_rate)) (truncToZero (duration_offset * sampling_rate))
    onset_weight offset_weight peaks

/-- The QRS onset search of one interval of dwt_delinate_qrs_bounds: an
undefined P peak yields an undefined onset; otherwise slice the detail row
from the P peak to R, negate, take the last local maximum (IndexError when
there is none, no handler in the source), set the threshold at half its
value and take the last earlier sample below it (IndexError when there is
none). -/
def qrsOnsetStep (dwtmatr : List (List ℚ)) (rowIdx : ℕ) (pk : Option ℤ) (ri : ℤ) :
    Except PyErr (Option ℤ) :=
  match pk with
  | none => pure none
  | some p => do
    let row ← getRow dwtmatr rowIdx
    let neg := (pySlice row p ri).map Neg.neg
    let m ← lastOrErr (localMaxima neg)
    let c ← lastOrErr ((List.range m).filter
      (fun j => getQ neg j < (1 / 2 : ℚ) * getQ neg m))
    pure (some ((c : ℤ) + p))

/-- The QRS offset search of one interval: mirror of the onset over the
window from R to the T peak on the non-negated row, first local maximum,
first later sample below half its value. -/
def qrsOffsetStep (dwtmatr : List (List ℚ)) (rowIdx : ℕ) (tk : Option ℤ) (ri : ℤ) :
    Except PyErr (Option ℤ) :=
  match tk with
  | none => pure none
  | some t => do
    let row ← getRow dwtmatr rowIdx
    let loc := pySlice row ri t
    let m ← headOrErr (localMaxima loc)
    let c ← headOrErr ((List.range (loc.length - m)).filter
      (fun j => getQ loc (j + m) < (1 / 2 : ℚ) * getQ loc m))
    pure (some (((c + m : ℕ) : ℤ) + ri))

/-- Loop of dwt_delinate_qrs_bounds over the interval indices. An undefined
P peak appends an undefined onset and, by the continue statement of the
source, skips the offset block of that interval entirely, appending nothing
to the offsets. Otherwise the onset search runs (no exception handler in
the source: an empty extremum or candidate selection raises IndexError and
aborts the call), then the offset block appends an undefined offset for an
undefined T peak or the result of the mirrored offset search. -/
def dwtQrsAux (dwtmatr : List (List ℚ)) (rowIdx : ℕ) (rpeaks : List ℤ)
    (ppeaks tpeaks : List (Option ℤ)) :
    List ℕ → Except PyErr (List (Option ℤ) × List (Option ℤ))
  | [] => .ok ([], [])
  | i :: rest => do
    let pk ← pyIdx ppeaks i
    let ri ← pyIdx rpeaks i
    match pk with
    | none => do
      let tail ← dwtQrsAux dwtmatr rowIdx rpeaks ppeaks tpeaks rest
      .ok (none :: tail.1, tail.2)
    | some p => do
      let onset ← qrsOnsetStep dwtmatr rowIdx (some p) ri
      let tk ← pyIdx tpeaks i
      let offset ← qrsOffsetStep dwtmatr rowIdx tk ri
      let tail ← dwtQrsAux dwtmatr rowIdx rpeaks ppeaks tpeaks rest
      .ok (onset :: tail.1, offset :: tail.2)

/-- The function dwt_delinate_qrs_bounds of the source: per R-R interval,
the QRS onset search runs over the window from the P peak to R on the
negated degree 2 plus compensation detail row, with the threshold at half
the last local maximum and the onset at the last sample below it before
that maximum; the offset mirrors it over the window from R to the T peak on
the non-negated row with the first local maximum. An undefined P peak
appends an undefined onset and skips the offset block of its interval
entirely, so the offsets list loses one slot per undefined P peak. -/
def dwt_delinate_qrs_bounds (rpeaks : List ℤ) (dwtmatr : List (List ℚ))
    (ppeaks tpeaks : List (Option ℤ)) (sampling_rate : ℕ) :
    Except PyErr (List (Option ℤ) × List (Option ℤ)) :=
  let degree := dwt_compensate_degree sampling_rate
  dwtQrsAux dwtmatr (2 + degree) rpeaks ppeaks tpeaks
    (List.range (rpeaks.length - 1))

/-- The DWT delineation pipeline dwt_ecg_delinator of the source: resample
the signal and the R-peaks to the analysis rate, build nine decomposition
scales, run the three searches, then resample every feature list back to the
input rate (dropping undefined entries) and apply the per-field boundary
trims: T onsets drop the last element; P peaks, P onsets and R onsets drop
the first element; the other five lists are untrimmed. -/
def dwt_ecg_delinator (ecg : List ℚ) (rpeaks : List ℤ) (sampling_rate : ℕ)
    (analysis_sampling_rate : ℕ) : Except PyErr (List (String × List ℤ)) := do
  let ecgR := signal_resample ecg sampling_rate analysis_sampling_rate
  let dwtmatr := dwt_compute_multiscales ecgR 9
  let rp := dwt_resample_points (rpeaks.map some) sampling_rate analysis_sampling_rate
  let tp ← dwt_delinate_tp_peaks rp dwtmatr analysis_sampling_rate
  let qrs ← dwt_delinate_qrs_bounds rp dwtmatr tp.2 tp.1 analysis_sampling_rate
  let pof ← dwt_delinate_tp_onsets_offsets tp.2 dwtmatr analysis_sampling_rate
    (3 / 10) (3 / 10) (2 / 5) (2 / 5) 2 2
  let tof ← dwt_delinate_tp_onsets_offsets tp.1 dwtmatr analysis_sampling_rate
    (3 / 5) (3 / 10) (3 / 5) (2 / 5) 2 2
  .ok [("ECG_T_Peaks", dwt_resample_points tp.1 analysis_sampling_rate sampling_rate),
    ("ECG_T_Onsets", (dwt_resample_points tof.1 analysis_sampling_rate sampling_rate).dropLast),
    ("ECG_T_Offsets", dwt_resample_points tof.2 analysis_sampling_rate sampling_rate),
    ("ECG_P_Peaks", (dwt_resample_points tp.2 analysis_sampling_rate sampling_rate).drop 1),
    ("ECG_P_Onsets", (dwt_resample_points pof.1 analysis_sampling_rate sampling_rate).drop 1),
    ("ECG_P_Offsets", dwt_resample_points pof.2 analysis_sampling_rate sampling_rate),
    ("ECG_R_Onsets", (dwt_resample_points qrs.1 analysis_sampling_rate sampling_rate).drop 1),
    ("ECG_R_Offsets", dwt_resample_points qrs.2 analysis_sampling_rate sampling_rate)]

/-- Onset search window of onset_offset_delineator for one peak: scale row
2 plain for R-linked peaks, scale row 4 negated for P and T peaks; an
unknown peak type leaves the wt_peaks variable of the source unassigned and
raises NameError. -/
def ooOnsetWindow (cwtmatr : List (List ℚ)) (pt : String) (half : ℕ) (p : ℤ) :
    Except PyErr (List ℚ) :=
  if pt = "rpeaks" then do
    let row ← getRow cwtmatr 2
    pure (pySlice row (p - half) p)
  else if pt = "tpeaks" ∨ pt = "ppeaks" then do
    let row ← getRow cwtmatr 4
    pure ((pySlice row (p - half) p).map Neg.neg)
  else Except.error PyErr.nameError

/-- Qualifying maxima of the onset window: nonnegative height, prominence
floor of 0.20 (R) or 0.10 (P and T) times the window maximum (ValueError
on an empty window). -/
def ooOnsetPeaks (w : List ℚ) (pt : String) : Except PyErr (List FP) := do
  let mxw ← pyMax w
  pure (findPeaksHP w 0 ((if pt = "rpeaks" then (1 / 5 : ℚ) else 1 / 10) * mxw))

/-- Onset value of one peak once a qualifying maximum exists: derive the
epsilon threshold from the anchor height (for R-linked peaks only when the
height is positive, otherwise the threshold of a previous iteration is
silently reused, NameError when there is none), collect the below-epsilon
candidates of the 100-sample margin before the anchor, add the left base
and take the maximum. Returns the onset and the epsilon that was used. -/
def ooOnsetValue (cwtmatr : List (List ℚ)) (pt : String) (half : ℕ) (p : ℤ)
    (lastPk : FP) (epsOn : Option ℚ) : Except PyErr (ℤ × ℚ) := do
  let nfirst : ℤ := (lastPk.idx : ℤ) + p - half
  let epsOn2 : Option ℚ :=
    if pt = "rpeaks" then
      if 0 < lastPk.height then some ((1 / 20) * lastPk.height) else epsOn
    else if pt = "ppeaks" then some ((1 / 2) * lastPk.height)
    else some ((1 / 4) * lastPk.height)
  let eOn ← match epsOn2 with
    | some v => pure v
    | none => Except.error PyErr.nameError
  let leftbase : ℤ := (lastPk.leftBase : ℤ) + p - half
  let sl ← if pt = "rpeaks" then do
      let row ← getRow cwtmatr 2
      pure (pySlice row (nfirst - 100) nfirst)
    else do
      let row ← getRow cwtmatr 4
      pure (pySlice row (nfirst - 100) nfirst)
  let cands : List ℤ :=
    if pt = "rpeaks" then
      ((List.range sl.length).filter (fun j => getQ sl j < eOn)).map
        (fun j => (j : ℤ) + nfirst - 100)
    else
      ((List.range sl.length).filter (fun j => -(getQ sl j) < eOn)).map
        (fun j => (j : ℤ) + nfirst - 100)
  let onset ← pyMaxZ (cands ++ [leftbase])
  pure (onset, eOn)

/-- Offset search window: scale row 2 negated for R-linked peaks, scale
row 4 plain for P and T peaks, after the peak. -/
def ooOffsetWindow (cwtmatr : List (List ℚ)) (pt : String) (half : ℕ) (p : ℤ) :
    Except PyErr (List ℚ) :=
  if pt = "rpeaks" then do
    let row ← getRow cwtmatr 2
    pure ((pySlice row p (p + half)).map Neg.neg)
  else do
    let row ← getRow cwtmatr 4
    pure (pySlice row p (p + half))

/-- Qualifying maxima of the offset window, prominence floor 0.50 (R) or
0.10 (P and T) times the window maximum. -/
def ooOffsetPeaks (w2 : List ℚ) (pt : String) : Except PyErr (List FP) := do
  let mxw2 ← pyMax w2
  pure (findPeaksHP w2 0 ((if pt = "rpeaks" then (1 / 2 : ℚ) else 1 / 10) * mxw2))

/-- Offset value of one peak, the mirror of the onset value: candidates of
the 100-sample margin after the anchor, right base added, minimum taken. -/
def ooOffsetValue (cwtmatr : List (List ℚ)) (pt : String) (p : ℤ)
    (firstPk : FP) (epsOff : Option ℚ) : Except PyErr (ℤ × ℚ) := do
  let nlast : ℤ := (firstPk.idx : ℤ) + p
  let epsOff2 : Option ℚ :=
    if pt = "rpeaks" then
      if 0 < firstPk.height then some ((1 / 8) * firstPk.height) else epsOff
    else if pt = "ppeaks" then some ((9 / 10) * firstPk.height)
    else some ((2 / 5) * firstPk.height)
  let eOff ← match epsOff2 with
    | some v => pure v
    | none => Except.error PyErr.nameError
  let rightbase : ℤ := (firstPk.rightBase : ℤ) + p
  let sl2 ← if pt = "rpeaks" then do
      let row ← getRow cwtmatr 2
      pure (pySlice row nlast (nlast + 100))
    else do
      let row ← getRow cwtmatr 4
      pure (pySlice row nlast (nlast + 100))
  let cands2 : List ℤ :=
    if pt = "rpeaks" then
      ((List.range sl2.length).filter (fun j => -(getQ sl2 j) < eOff)).map
        (fun j => (j : ℤ) + nlast)
    else
      ((List.range sl2.length).filter (fun j => getQ sl2 j < eOff)).map
        (fun j => (j : ℤ) + nlast)
  let offset ← pyMinZ (cands2 ++ [rightbase])
  pure (offset, eOff)

/-- Loop of onset_offset_delineator over the peak list. The continuous
wavelet transform of the signal is an external collaborator (pywt.cwt with
the gaus1 wavelet at scales 1, 2, 4, 8, 16); the functions of this path are
embedded over the coefficient matrix it returns, one row per scale. The two
epsilon threshold variables of the source are Python locals that persist
across loop iterations and may be read while never assigned, so they are
threaded as optional state (NameError when read unassigned). When no
qualifying maximum exists in a search window the source executes continue:
an onset failure appends nothing to either output list, an offset failure
appends nothing to the offsets. -/
def ooDelAux (cwtmatr : List (List ℚ)) (pt : String) (half : ℕ) :
    List ℤ → Option ℚ → Option ℚ → Except PyErr (List ℤ × List ℤ)
  | [], _, _ => .ok ([], [])
  | p :: rest, epsOn, epsOff => do
    let w ← ooOnsetWindow cwtmatr pt half p
    let wt ← ooOnsetPeaks w pt
    match wt.getLast? with
    | none => ooDelAux cwtmatr pt half rest epsOn epsOff
    | some lastPk => do
      let ov ← ooOnsetValue cwtmatr pt half p lastPk epsOn
      let w2 ← ooOffsetWindow cwtmatr pt half p
      let wt2 ← ooOffsetPeaks w2 pt
      match wt2.head? with
      | none => do
        let tail ← ooDelAux cwtmatr pt half rest (some ov.2) epsOff
        .ok (ov.1 :: tail.1, tail.2)
      | some firstPk => do
        let fv ← ooOffsetValue cwtmatr pt p firstPk epsOff
        let tail ← ooDelAux cwtmatr pt half rest (some ov.2) (some fv.2)
        .ok (ov.1 :: tail.1, fv.1 :: tail.2)

/-- The function onset_offset_delineator of the source: for each peak,
search a half-wave window of 0.1 seconds before the peak for the onset and
after the peak for the offset, on scale row 2 (R-linked, sign conventions
plain then negated) or scale row 4 (P and T, negated then plain), with a
prominence floor proportional to the window maximum; the onset is the
maximum of the below-epsilon candidates in a 100-sample margin before the
anchor together with the left base of the anchor, the offset the minimum of
the corresponding candidates after it together with the right base. -/
def onset_offset_delineator (cwtmatr : List (List ℚ)) (peaks : List ℤ)
    (peak_type : String) (sampling_rate : ℕ) : Except PyErr (List ℤ × List ℤ) :=
  ooDelAux cwtmatr peak_type (sampling_rate / 10) peaks none none

/-- Loop of find_tppeaks over consecutive retained wavelet peaks: for a
negative-then-positive pair locate the first zero crossing between them
(IndexError when there is none) and refine to the position of the maximum
of the raw signal within 0.05 seconds around the crossing (ValueError when
that window is empty). -/
def findTppeaksAux (ecg : List ℚ) (cwtmatr : List (List ℚ)) (nb : ℕ) :
    List ℤ → Except PyErr (List ℤ)
  | a :: b :: rest => do
    let row4 ← getRow cwtmatr 4
    if getQZ row4 a < 0 ∧ 0 < getQZ row4 b then
      match signal_zerocrossings (pySlice row4 a b) with
      | [] => .error .indexError
      | z :: _ => do
        let izc : ℤ := (z : ℤ) + a
        let wnd := pySlice ecg (izc - nb) (izc + nb)
        let am ← npArgmax wnd
        let tail ← findTppeaksAux ecg cwtmatr nb (b :: rest)
        .ok (((am : ℤ) + (izc - nb)) :: tail)
    else findTppeaksAux ecg cwtmatr nb (b :: rest)
  | _ => .ok []

/-- The function find_tppeaks of the source, over the scale 4 row of the
transform matrix of the collaborator. -/
def find_tppeaks (ecg : List ℚ) (keep_tp : List ℤ) (cwtmatr : List (List ℚ))
    (sampling_rate : ℕ) : Except PyErr (List ℤ) :=
  findTppeaksAux ecg cwtmatr (sampling_rate / 20) keep_tp

/-- Interval loop of peaks_delineator: per R-R interval, slice scale row 4
to the window bounded away from both R-peaks, keep local maxima of the
absolute window above 0.25 of the window root-mean-square (squared
comparison) and above 0.125 of the window maximum (ValueError when the
window is empty), and collect the refined peaks of find_tppeaks. -/
def peaksDelinAux (ecg : List ℚ) (cwtmatr : List (List ℚ)) (sb nb : ℕ) :
    List (ℤ × ℤ) → Except PyErr (List (List ℤ))
  | [] => .ok []
  | (r0, r1) :: rest => do
    let row4 ← getRow cwtmatr 4
    let w := pySlice row4 (r0 + sb) (r1 - sb)
    let peaksRel := (localMaxima (w.map (fun v => |v|))).filter
      (fun j => (1 / 16 : ℚ) * meanSq w ≤ (getQ w j) ^ 2)
    let mx ← pyMax w
    let sigPeaks := (peaksRel.filter (fun j => (1 / 8 : ℚ) * mx < |getQ w j|)).map
      (fun j => (j : ℤ) + r0 + sb)
    let g ← findTppeaksAux ecg cwtmatr nb sigPeaks
    let tail ← peaksDelinAux ecg cwtmatr sb nb rest
    .ok (g :: tail)

/-- The function peaks_delineator of the source: group the significant
wavelet peaks per R-R interval, refine them with find_tppeaks, and take the
first refined point of each group as the T peak and the last as the P peak.
An empty group raises IndexError at the first element selection; an empty
group list (fewer than two R-peaks) raises ValueError when unpacking the
empty zip. The search boundary is int(0.9 * 0.1 * rate / 2). -/
def peaks_delineator (ecg : List ℚ) (rpeaks : List ℤ) (cwtmatr : List (List ℚ))
    (sampling_rate : ℕ) : Except PyErr (List ℤ × List ℤ) := do
  let sb := 9 * sampling_rate / 200
  let groups ← peaksDelinAux ecg cwtmatr sb (sampling_rate / 20) (rpeaks.zip rpeaks.tail)
  match groups with
  | [] => .error .valueError
  | _ => do
    let tpeaks ← groups.mapM headOrErr
    let ppeaks ← groups.mapM lastOrErr
    .ok (tpeaks, ppeaks)

/-- The CWT delineation path ecg_delinator_cwt of the source, embedded over
the transform matrix of the external collaborator. -/
def ecg_delinator_cwt (ecg : List ℚ) (rpeaks : List ℤ) (cwtmatr : List (List ℚ))
    (sampling_rate : ℕ) : Except PyErr (List (String × List (Option ℤ))) := do
  let tp ← peaks_delineator ecg rpeaks cwtmatr sampling_rate
  let qrs ← onset_offset_delineator cwtmatr rpeaks "rpeaks" sampling_rate
  let pp ← onset_offset_delineator cwtmatr tp.2 "ppeaks" sampling_rate
  let tt ← onset_offset_delineator cwtmatr tp.1 "tpeaks" sampling_rate
  .ok [("ECG_P_Peaks", tp.2.map some), ("ECG_T_Peaks", tp.1.map some),
    ("ECG_R_Onsets", qrs.1.map some), ("ECG_R_Offsets", qrs.2.map some),
    ("ECG_P_Onsets", pp.1.map some), ("ECG_P_Offsets", pp.2.map some),
    ("ECG_T_Onsets", tt.1.map some), ("ECG_T_Offsets", tt.2.map some)]

/-- Modelled from the spec: the repository collaborator epochs_create
(module neurokit2.epochs, not under src) extracts a fixed-length window
around an anchor index, spanning 0.35 seconds before to 0.5 seconds after
the R-peak, anchored so that relative index 0 aligns with the R-peak;
samples outside the signal read as 0. The samples field lists the window,
the anchor field is the position of the R-peak sample inside it, and the
relative index value of position j is j minus the anchor. -/
structure Heartbeat where
  samples : List ℚ
  anchor : ℕ
deriving DecidableEq, Repr

/-- Modelled from the spec: build the heartbeat epoch of one R-peak. -/
def epochs_create_sm (sig : List ℚ) (r : ℤ) (sampling_rate : ℕ) : Heartbeat :=
  let a := 7 * sampling_rate / 20
  let b := sampling_rate / 2
  ⟨(List.range (a + b + 1)).map (fun j => getQZ sig (r - a + j)), a⟩

/-- Maximum of a segment, 0 when empty (the degenerate empty case stands
for the NaN the source would propagate; no claim depends on it). -/
def segMax (xs : List ℚ) : ℚ :=
  match xs.max? with
  | some v => v
  | none => 0

/-- Minimum of a segment, 0 when empty. -/
def segMin (xs : List ℚ) : ℚ :=
  match xs.min? with
  | some v => v
  | none => 0

/-- The 5 percent height floor of the derivative method: 0.05 times the
peak-to-peak amplitude of the segment. -/
def height5pc (xs : List ℚ) : ℚ := (1 / 20) * (segMax xs - segMin xs)

/-- Modelled from the spec: the repository collaborator signal_findpeaks
(module neurokit2.signal, not under src) is the local-maxima detector:
indices of samples strictly greater than both neighbours (flat regions
excluded) whose value satisfies the minimal-height threshold. -/
def signal_findpeaks_sm (x : List ℚ) (height_min : ℚ) : List ℕ :=
  (List.range x.length).filter (fun i =>
    0 < i ∧ i + 1 < x.length ∧ getQ x (i - 1) < getQ x i ∧
      getQ x (i + 1) < getQ x i ∧ height_min ≤ getQ x i)

/-- The function ecg_delineator_derivative_Q of the source: the segment is
the label slice of the heartbeat up to relative index 0 (positions up to
and including the anchor); Q is the last local maximum of the negated
segment with the 5 percent height floor of that segment; none gives an
undefined Q. The returned sample index is rpeak minus (R minus the
position), with R the position of the first strictly positive relative
index. -/
def ecg_delineator_derivative_Q (rpeak : ℤ) (hb : Heartbeat) (R : ℕ) :
    Option ℤ × Option ℕ :=
  let seg := hb.samples.take (hb.anchor + 1)
  match (signal_findpeaks_sm (seg.map Neg.neg) (height5pc seg)).getLast? with
  | none => (none, none)
  | some q => (some (rpeak - ((R : ℤ) - q)), some q)

/-- The function ecg_delineator_derivative_P of the source: undefined when Q
is undefined; otherwise the last local maximum, with the 5 percent floor of
its own segment, in the positional slice strictly before Q. -/
def ecg_delineator_derivative_P (rpeak : ℤ) (hb : Heartbeat) (R : ℕ)
    (q : Option ℕ) : Option ℤ × Option ℕ :=
  match q with
  | none => (none, none)
  | some qv =>
    let seg := hb.samples.take qv
    match (signal_findpeaks_sm seg (height5pc seg)).getLast? with
    | none => (none, none)
    | some p => (some (rpeak - ((R : ℤ) - p)), some p)

/-- The function ecg_delineator_derivative_S of the source: the first local
maximum of the negated label slice from relative index 0 onward. -/
def ecg_delineator_derivative_S (rpeak : ℤ) (hb : Heartbeat) :
    Option ℤ × Option ℕ :=
  let seg := hb.samples.drop hb.anchor
  match (signal_findpeaks_sm (seg.map Neg.neg) (height5pc seg)).head? with
  | none => (none, none)
  | some s => (some (rpeak + s), some s)

/-- The function ecg_delineator_derivative_T of the source: undefined when S
is undefined; otherwise the first local maximum of the positional slice
from R plus S onward, reported relative to S. -/
def ecg_delineator_derivative_T (rpeak : ℤ) (hb : Heartbeat) (R : ℕ)
    (s : Option ℕ) : Option ℤ × Option ℕ :=
  match s with
  | none => (none, none)
  | some sv =>
    let seg := hb.samples.drop (R + sv)
    match (signal_findpeaks_sm seg (height5pc seg)).head? with
    | none => (none, none)
    | some t => (some (rpeak + ((sv + t : ℕ) : ℤ)), some (sv + t))

/-- Modelled from the spec: the repository collaborator signal_smooth
(module neurokit2.signal, not under src) is a moving average with the given
window size, boundary windows clamped to the signal. -/
def signal_smooth_sm (x : List ℚ) (size : ℕ) : List ℚ :=
  (List.range x.length).map (fun i =>
    let lo := i - size / 2
    let hi := min (i + size / 2) (x.length - 1)
    let win := (x.drop lo).take (hi - lo + 1)
    (win.foldl (fun a v => a + v) 0) / (win.length : ℚ))

/-- The numpy gradient with unit spacing: central differences inside, one-
sided differences at the boundary, 0 for degenerate lengths. -/
def npGradient (x : List ℚ) : List ℚ :=
  (List.range x.length).map (fun i =>
    if x.length ≤ 1 then 0
    else if i = 0 then getQ x 1 - getQ x 0
    else if i = x.length - 1 then getQ x i - getQ x (i - 1)
    else (getQ x (i + 1) - getQ x (i - 1)) / 2)

/-- Total argmax (first position of the maximum, 0 for an empty list),
used in the smoothing branches that no verified claim exercises. -/
def npArgmaxD (xs : List ℚ) : ℕ :=
  match xs.max? with
  | some m => xs.findIdx (fun v => decide (v = m))
  | none => 0

/-- The function ecg_delineator_derivative_P_onset of the source: undefined
when P is undefined; otherwise smooth the segment before P with window
R / 10, take the gradient twice and report the position of its maximum. -/
def ecg_delineator_derivative_P_onset (rpeak : ℤ) (hb : Heartbeat) (R : ℕ)
    (p : Option ℕ) : Option ℤ :=
  match p with
  | none => none
  | some pv =>
    let seg := hb.samples.take pv
    let g := npGradient (npGradient (signal_smooth_sm seg (R / 10)))
    some (rpeak - ((R : ℤ) - npArgmaxD g))

/-- The function ecg_delineator_derivative_T_offset of the source: undefined
when T is undefined; otherwise the mirrored smoothing construction after T. -/
def ecg_delineator_derivative_T_offset (rpeak : ℤ) (hb : Heartbeat) (R : ℕ)
    (t : Option ℕ) : Option ℤ :=
  match t with
  | none => none
  | some tv =>
    let seg := hb.samples.drop (R + tv)
    let g := npGradient (npGradient (signal_smooth_sm seg (R / 10)))
    some (rpeak + ((tv : ℤ) + npArgmaxD g))

/-- The six per-beat results of the derivative method. -/
structure DerivBeat where
  pPeak : Option ℤ
  qPeak : Option ℤ
  sPeak : Option ℤ
  tPeak : Option ℤ
  pOnset : Option ℤ
  tOffset : Option ℤ
deriving DecidableEq, Repr

/-- One iteration of the derivative loop: build the epoch of the R-peak,
locate R as the position of the first strictly positive relative index
(anchor plus one in the epoch model), and run the six searches with their
dependency chain Q before P and S before T. -/
def derivBeat (sig : List ℚ) (sampling_rate : ℕ) (r : ℤ) : DerivBeat :=
  let hb := epochs_create_sm sig r sampling_rate
  let R := hb.anchor + 1
  let qq := ecg_delineator_derivative_Q r hb R
  let pp := ecg_delineator_derivative_P r hb R qq.2
  let ss := ecg_delineator_derivative_S r hb
  let tt := ecg_delineator_derivative_T r hb R ss.2
  ⟨pp.1, qq.1, ss.1, tt.1,
    ecg_delineator_derivative_P_onset r hb R pp.2,
    ecg_delineator_derivative_T_offset r hb R tt.2⟩

/-- The derivative delineation path ecg_delineator_derivative of the
source: six per-beat lists aligned one-to-one with the R-peak sequence. -/
def ecg_delineator_derivative (sig : List ℚ) (rpeaks : List ℤ)
    (sampling_rate : ℕ) : List (String × List (Option ℤ)) :=
  let beats := rpeaks.map (derivBeat sig sampling_rate)
  [("ECG_P_Peaks", beats.map DerivBeat.pPeak),
    ("ECG_Q_Peaks", beats.map DerivBeat.qPeak),
    ("ECG_S_Peaks", beats.map DerivBeat.sPeak),
    ("ECG_T_Peaks", beats.map DerivBeat.tPeak),
    ("ECG_P_Onsets", beats.map DerivBeat.pOnset),
    ("ECG_T_Offsets", beats.map DerivBeat.tOffset)]

/-- The final cleaning loop of ecg_delineate: remove the undefined entries
of every feature list. -/
def removeNaN (waves : List (String × List (Option ℤ))) : List (String × List ℤ) :=
  waves.map (fun f => (f.1, f.2.filterMap id))

/-- Modelled from the spec: the repository collaborator signal_formatpeaks
(module neurokit2.signal, not under src) builds the indicator table, one
row per input sample and one column per feature, 1 at each defined index in
range and 0 elsewhere (out-of-range indices are filtered out). -/
def signal_formatpeaks_sm (waves : List (String × List ℤ)) (n : ℕ) :
    List (String × List ℕ) :=
  waves.map (fun f => (f.1, (List.range n).map (fun i => if (i : ℤ) ∈ f.2 then 1 else 0)))

/-- Lowercasing of one ASCII character, the effect of the Python lower
method on the method names considered here. -/
def lowerChar (c : Char) : Char :=
  if 65 ≤ c.toNat ∧ c.toNat ≤ 90 then Char.ofNat (c.toNat + 32) else c

/-- Lowercasing of a string, character by character. -/
def pyToLower (s : String) : String := ⟨s.data.map lowerChar⟩

/-- The set of accepted method names of the dispatcher, after lowercasing. -/
def acceptedMethod (m : String) : Prop :=
  pyToLower m = "derivative" ∨ pyToLower m = "gradient" ∨ pyToLower m = "cwt" ∨
    pyToLower m = "continuous wavelet transform" ∨ pyToLower m = "dwt" ∨
    pyToLower m = "discrete wavelet transform"

instance (m : String) : Decidable (acceptedMethod m) := by
  unfold acceptedMethod
  infer_instance

/-- The entry point ecg_delineate of the source: lowercase the method name
and test it against the three accepted pairs of names (the three tests of
the source are disjoint, so the if chain is faithful); when none matches,
the waves variable is never assigned and the subsequent read raises
NameError (there is no explicit invalid-method report in the source). The
continuous wavelet transform of the signal is supplied by the external
collaborator cwt. Undefined entries are removed from every feature list and
the indicator table is built at the input length. -/
def ecg_delineate (ecg : List ℚ) (rpeaks : List ℤ) (sampling_rate : ℕ)
    (method : String) (cwt : List ℚ → List (List ℚ)) :
    Except PyErr (List (String × List ℕ) × List (String × List ℤ)) := do
  let m := pyToLower method
  let waves ← if m = "derivative" ∨ m = "gradient" then
      pure (ecg_delineator_derivative ecg rpeaks sampling_rate)
    else if m = "cwt" ∨ m = "continuous wavelet transform" then
      ecg_delinator_cwt ecg rpeaks (cwt ecg) sampling_rate
    else if m = "dwt" ∨ m = "discrete wavelet transform" then do
      let w ← dwt_ecg_delinator ecg rpeaks sampling_rate 2000
      pure (w.map (fun f => (f.1, f.2.map some)))
    else Except.error PyErr.nameError
  let wlists := removeNaN waves
  .ok (signal_formatpeaks_sm wlists ecg.length, wlists)

/-- Lookup of one feature list in the waves of a delineation result. -/
def getFeature (r : Except PyErr (List (String × List ℕ) × List (String × List ℤ)))
    (name : String) : Option (List ℤ) :=
  match r with
  | .ok w => (w.2.find? (fun f => f.1 = name)).map (fun f => f.2)
  | .error _ => none

/-! Claim C9: round-trip resampling of point indices. -/

/-- Claim C9 as stated: for every integer sample index within signal bounds
and every positive original sampling rate, resampling the index to 2000 Hz
and back (with integer truncation each way, as dwt_resample_points does)
returns an index within one sample of the original. -/
def claimC9 : Prop :=
  ∀ (p : ℤ) (n sampling_rate : ℕ), 0 < sampling_rate → 0 ≤ p → p < (n : ℤ) →
    |dwt_resample_point (dwt_resample_point p sampling_rate 2000) 2000 sampling_rate - p| ≤ 1

/-- For a nonnegative index the truncating resampling is the floor of the
exact ratio, hence integer division. -/
theorem dwt_resample_point_eq_ediv (p : ℤ) (hp : 0 ≤ p) (sr dsr : ℕ) :
    dwt_resample_point p sr dsr = p * dsr / (sr : ℤ) := by
  unfold dwt_resample_point truncToZero
  have hnum : ((p : ℚ) * (dsr : ℚ)) = (((p * dsr : ℤ) : ℚ)) := by push_cast; ring
  have h0 : (0 : ℚ) ≤ (p : ℚ) * (dsr : ℚ) / (sr : ℚ) := by
    apply div_nonneg
    · have : (0 : ℚ) ≤ (p : ℚ) := by exact_mod_cast hp
      positivity
    · positivity
  rw [if_pos (by exact_mod_cast h0)]
  have : ((p * (dsr : ℤ) : ℤ) : ℚ) / ((sr : ℕ) : ℚ) = ((p : ℚ) * (dsr : ℚ)) / (sr : ℚ) := by
    push_cast; ring
  calc ((p : ℚ) * (dsr : ℚ) / (sr : ℚ)).floor
      = ⌊((p * (dsr : ℤ) : ℤ) : ℚ) / ((sr : ℕ) : ℚ)⌋ := by rw [this]; rfl
    _ = p * dsr / (sr : ℤ) := Rat.floor_intCast_div_natCast _ _

/-- Claim C9 is false as stated: at original rate 8000 Hz (downsampling to
the 2000 Hz analysis rate), index 7 of a signal of length 8000 resamples to
1 and back to 4, an error of 3 samples. -/
theorem C9_counterexample : ¬ claimC9 := by
  intro h
  have h1 := h 7 8000 8000 (by norm_num) (by norm_num) (by norm_num)
  rw [dwt_resample_point_eq_ediv 7 (by norm_num) 8000 2000] at h1
  push_cast at h1
  rw [dwt_resample_point_eq_ediv 1 (by norm_num) 2000 8000] at h1
  push_cast at h1
  exact absurd h1 (by decide)

/-- Claim C9 amended: the round trip through the 2000 Hz analysis rate is
within one sample of the original index whenever the original sampling rate
does not exceed 2000 Hz (the upsampling direction); for higher rates the
error can reach the downsampling ratio. -/
theorem C9_amended (p : ℤ) (n sampling_rate : ℕ) (h0 : 0 < sampling_rate)
    (h2000 : sampling_rate ≤ 2000) (hp : 0 ≤ p) (hn : p < (n : ℤ)) :
    |dwt_resample_point (dwt_resample_point p sampling_rate 2000) 2000 sampling_rate - p|
      ≤ 1 := by
  have hRpos : (0 : ℤ) < (sampling_rate : ℤ) := by exact_mod_cast h0
  have hq : 0 ≤ p * 2000 / (sampling_rate : ℤ) :=
    Int.ediv_nonneg (by positivity) (le_of_lt hRpos)
  rw [dwt_resample_point_eq_ediv p hp]
  push_cast
  rw [dwt_resample_point_eq_ediv _ hq]
  push_cast
  have hR2000 : (sampling_rate : ℤ) ≤ 2000 := by exact_mod_cast h2000
  have h1 := Int.ediv_add_emod (p * 2000) (sampling_rate : ℤ)
  have h2 := Int.emod_nonneg (p * 2000) (ne_of_gt hRpos)
  have h3 := Int.emod_lt_of_pos (p * 2000) hRpos
  have h4 := Int.ediv_add_emod (p * 2000 / (sampling_rate : ℤ) * (sampling_rate : ℤ)) (2000 : ℤ)
  have h5 := Int.emod_nonneg (p * 2000 / (sampling_rate : ℤ) * (sampling_rate : ℤ))
    (by norm_num : (2000 : ℤ) ≠ 0)
  have h6 := Int.emod_lt_of_pos (p * 2000 / (sampling_rate : ℤ) * (sampling_rate : ℤ))
    (by norm_num : (0 : ℤ) < 2000)
  have h7 : 2000 * (p * 2000 / (sampling_rate : ℤ) * (sampling_rate : ℤ) / 2000)
      + p * 2000 / (sampling_rate : ℤ) * (sampling_rate : ℤ) % 2000
      = 2000 * p - p * 2000 % (sampling_rate : ℤ) := by linarith [h1, h4]
  rw [abs_le]
  constructor <;> omega

/-- Witness for the amended claim C9 at index 5, length 10, rate 1000 Hz. -/
theorem C9_witness :
    |dwt_resample_point (dwt_resample_point 5 1000 2000) 2000 1000 - 5| ≤ 1 :=
  C9_amended 5 10 1000 (by norm_num) (by norm_num) (by norm_num) (by norm_num)

/-! Claim C8: invalid method names. -/

/-- Projection of the error of a delineation result. -/
def resultErr {α : Type} : Except PyErr α → Option PyErr
  | .error e => some e
  | .ok _ => none

/-- Claim C8 as stated: a method name outside the accepted set makes the
dispatcher fail with a deliberate invalid-method report, which an explicit
validation would raise as ValueError, before any delineation computation. -/
def claimC8 : Prop :=
  ∀ (ecg : List ℚ) (rpeaks : List ℤ) (sampling_rate : ℕ) (method : String)
    (cwt : List ℚ → List (List ℚ)), ¬ acceptedMethod method →
    ecg_delineate ecg rpeaks sampling_rate method cwt = .error .valueError

/-- Helper: an unaccepted method name leaves the waves variable unassigned
and the dispatcher fails with NameError. -/
theorem invalidMethodNameError (ecg : List ℚ) (rpeaks : List ℤ) (sampling_rate : ℕ)
    (method : String) (cwt : List ℚ → List (List ℚ)) (h : ¬ acceptedMethod method) :
    ecg_delineate ecg rpeaks sampling_rate method cwt = .error .nameError := by
  unfold acceptedMethod at h
  push_neg at h
  obtain ⟨h1, h2, h3, h4, h5, h6⟩ := h
  unfold ecg_delineate
  simp [h1, h2, h3, h4, h5, h6, Bind.bind, Except.bind]

/-- Claim C8 amended: the dispatcher has no explicit invalid-method report;
an unaccepted name (case-insensitively outside the six accepted names)
leaves the waves variable unassigned, and its later read fails with
NameError (UnboundLocalError). No delineation path is entered. -/
theorem C8_amended (ecg : List ℚ) (rpeaks : List ℤ) (sampling_rate : ℕ)
    (method : String) (cwt : List ℚ → List (List ℚ)) (h : ¬ acceptedMethod method) :
    ecg_delineate ecg rpeaks sampling_rate method cwt = .error .nameError :=
  invalidMethodNameError ecg rpeaks sampling_rate method cwt h

/-- Witness for the amended claim C8 at the concrete method name qrst. -/
theorem C8_witness : ecg_delineate [0] [0] 1000 "qrst" (fun _ => []) = .error .nameError :=
  C8_amended [0] [0] 1000 "qrst" (fun _ => []) (by decide)

/-- Claim C8 is false as stated: with the unaccepted method name qrs the
call fails, but with the accidental NameError, not a deliberate
invalid-method report. -/
theorem C8_counterexample : ¬ claimC8 := by
  intro h
  have h1 := h [0] [0] 1000 "qrs" (fun _ => []) (by decide)
  have h2 : ecg_delineate [0] [0] 1000 "qrs" (fun _ => []) = .error .nameError :=
    invalidMethodNameError [0] [0] 1000 "qrs" (fun _ => []) (by decide)
  rw [h1] at h2
  exact absurd h2 (by simp)

/-! Claim C10: list desynchronization in the P/T onset and offset search. -/

instance {ε α : Type} [DecidableEq ε] [DecidableEq α] : DecidableEq (Except ε α) :=
  fun a b =>
    match a, b with
    | .ok x, .ok y =>
      if h : x = y then isTrue (by rw [h])
      else isFalse (by intro hc; cases hc; exact h rfl)
    | .error x, .error y =>
      if h : x = y then isTrue (by rw [h])
      else isFalse (by intro hc; cases hc; exact h rfl)
    | .ok _, .error _ => isFalse (by intro hc; cases hc)
    | .error _, .ok _ => isFalse (by intro hc; cases hc)

/-- Length bookkeeping of the loop of the P/T onset and offset search: the
onsets list gets one slot per input peak (an undefined slot for an
undefined peak), while the offsets list gets a slot for defined peaks only,
because the continue statement after the undefined-peak onset append skips
the offset append entirely. -/
theorem dwtTpOnOffAux_lengths (dwtmatr : List (List ℚ)) (rowOn rowOff : ℕ)
    (durS durOffS : ℤ) (onW offW : ℚ) (peaks : List (Option ℤ)) :
    ∀ ons offs : List (Option ℤ),
      dwtTpOnOffAux dwtmatr rowOn rowOff durS durOffS onW offW peaks = .ok (ons, offs) →
      ons.length = peaks.length ∧
        offs.length = peaks.length - peaks.countP (fun o => o.isNone) := by
  induction peaks with
  | nil =>
    intro ons offs h
    simp only [dwtTpOnOffAux, Except.ok.injEq, Prod.mk.injEq] at h
    obtain ⟨h1, h2⟩ := h
    simp [← h1, ← h2]
  | cons hd rest ih =>
    intro ons offs h
    match hd with
    | none =>
      simp only [dwtTpOnOffAux, Bind.bind, Except.bind] at h
      cases hr : dwtTpOnOffAux dwtmatr rowOn rowOff durS durOffS onW offW rest with
      | error e => rw [hr] at h; exact absurd h (by simp)
      | ok t =>
        rw [hr] at h
        simp only [Except.ok.injEq, Prod.mk.injEq] at h
        obtain ⟨h1, h2⟩ := h
        have iht := ih t.1 t.2 (by rw [hr])
        have hle := List.countP_le_length (fun o => Option.isNone o) (l := rest)
        subst h1; subst h2
        refine ⟨by simp [iht.1], ?_⟩
        have hc : List.countP (fun o => Option.isNone o) (none :: rest)
            = List.countP (fun o => Option.isNone o) rest + 1 := by
          simp [List.countP_cons]
        rw [hc, List.length_cons, iht.2]
        omega
    | some p =>
      simp only [dwtTpOnOffAux, Bind.bind, Except.bind] at h
      cases hrow : getRow dwtmatr rowOn with
      | error e => rw [hrow] at h; exact absurd h (by simp)
      | ok row =>
        rw [hrow] at h
        cases hrow2 : getRow dwtmatr rowOff with
        | error e => rw [hrow2] at h; exact absurd h (by simp)
        | ok row2 =>
          rw [hrow2] at h
          cases hr : dwtTpOnOffAux dwtmatr rowOn rowOff durS durOffS onW offW rest with
          | error e => rw [hr] at h; exact absurd h (by simp)
          | ok t =>
            rw [hr] at h
            simp only [Except.ok.injEq, Prod.mk.injEq] at h
            obtain ⟨h1, h2⟩ := h
            have iht := ih t.1 t.2 (by rw [hr])
            have hle := List.countP_le_length (fun o => Option.isNone o) (l := rest)
            subst h1; subst h2
            refine ⟨by simp [iht.1], ?_⟩
            have hc : List.countP (fun o => Option.isNone o) (some p :: rest)
                = List.countP (fun o => Option.isNone o) rest := by
              simp [List.countP_cons]
            rw [hc, List.length_cons, List.length_cons, iht.2]
            omega

/-- Claim C10: in the DWT P/T onset and offset search, the returned onsets
list has exactly one slot per input peak while the offsets list loses one
slot per undefined input peak, breaking positional correspondence. -/
theorem C10_offsets_desync (peaks : List (Option ℤ)) (dwtmatr : List (List ℚ))
    (sampling_rate : ℕ) (duration duration_offset onset_weight offset_weight : ℚ)
    (degree_onset degree_offset : ℕ) (ons offs : List (Option ℤ))
    (hok : dwt_delinate_tp_onsets_offsets peaks dwtmatr sampling_rate duration
      duration_offset onset_weight offset_weight degree_onset degree_offset
      = .ok (ons, offs)) :
    ons.length = peaks.length ∧
      offs.length = peaks.length - peaks.countP (fun o => o.isNone) := by
  unfold dwt_delinate_tp_onsets_offsets at hok
  exact dwtTpOnOffAux_lengths _ _ _ _ _ _ _ peaks ons offs hok

/-- Decomposition matrix of the concrete witness input of claim C10. -/
def c10dm : List (List ℚ) :=
  [List.replicate 20 0, List.replicate 20 0,
    (List.range 20).map (fun j => ((j % 5 : ℕ) : ℚ) - 2)]

/-- Witness for claim C10 at a concrete input with one undefined peak among
three: the onsets keep three slots, the offsets keep only two. -/
theorem C10_witness :
    ∃ ons offs : List (Option ℤ),
      dwt_delinate_tp_onsets_offsets [some 8, none, some 15] c10dm 250
        (3 / 10) (3 / 10) (2 / 5) (2 / 5) 2 2 = .ok (ons, offs) ∧
      ons.length = 3 ∧ offs.length = 2 := by
  have e : dwt_delinate_tp_onsets_offsets [some 8, none, some 15] c10dm 250
      (3 / 10) (3 / 10) (2 / 5) (2 / 5) 2 2
      = .ok ([some (-65), none, some (-53)], [some 12, none]) :=
    of_decide_eq_true (by with_unfolding_all rfl)
  have hl := C10_offsets_desync [some 8, none, some 15] c10dm 250
    (3 / 10) (3 / 10) (2 / 5) (2 / 5) 2 2 _ _ e
  exact ⟨_, _, e, by simpa using hl.1, by simpa using hl.2⟩

/-! Claim C4: an R-peak set of length one. -/

/-- The eight feature names of the DWT path with empty index lists. -/
def dwtEmptyWaves : List (String × List ℤ) :=
  [("ECG_T_Peaks", []), ("ECG_T_Onsets", []), ("ECG_T_Offsets", []),
    ("ECG_P_Peaks", []), ("ECG_P_Onsets", []), ("ECG_P_Offsets", []),
    ("ECG_R_Onsets", []), ("ECG_R_Offsets", [])]

/-- Helper: with a single R-peak the DWT pipeline has no R-R interval and
no peak to iterate over, so every loop is empty and every feature list is
returned empty, without any exception. -/
theorem dwt_single_rpeak_ok (ecg : List ℚ) (r : ℤ) (sampling_rate : ℕ) :
    dwt_ecg_delinator ecg [r] sampling_rate 2000 = .ok dwtEmptyWaves := rfl

/-- Helper: with a single R-peak the CWT peak delineator builds an empty
group list and crashes with ValueError when unpacking the empty zip; the
error propagates out of the whole call, for every transform collaborator. -/
theorem cwt_single_rpeak_error (ecg : List ℚ) (r : ℤ) (sampling_rate : ℕ)
    (cwt : List ℚ → List (List ℚ)) :
    ecg_delineate ecg [r] sampling_rate "cwt" cwt = .error .valueError := by
  unfold ecg_delineate
  rw [if_neg (by decide), if_pos (by decide)]
  have hpd : ecg_delinator_cwt ecg [r] (cwt ecg) sampling_rate = .error .valueError := rfl
  rw [hpd]
  rfl

/-- Claim C4 as stated: for a single R-peak both interval-based paths
return without crashing. -/
def claimC4 : Prop :=
  ∀ (ecg : List ℚ) (rpeaks : List ℤ) (sampling_rate : ℕ)
    (cwt : List ℚ → List (List ℚ)), rpeaks.length = 1 →
    (∃ w, ecg_delineate ecg rpeaks sampling_rate "dwt" cwt = .ok w) ∧
    (∃ w, ecg_delineate ecg rpeaks sampling_rate "cwt" cwt = .ok w)

/-- Claim C4 is false as stated: with one R-peak the CWT path crashes with
ValueError while unpacking an empty zip. -/
theorem C4_counterexample : ¬ claimC4 := by
  intro h
  obtain ⟨-, ⟨w, hw⟩⟩ := h [0, 1, 2] [1] 1000 (fun _ => []) rfl
  have he := cwt_single_rpeak_error [0, 1, 2] 1 1000 (fun _ => [])
  rw [hw] at he
  exact absurd he (by simp)

/-- Claim C4 amended: with a single R-peak the DWT path returns all eight
feature lists empty and raises nothing, while the CWT path always crashes
with ValueError when unpacking the empty group list. -/
theorem C4_amended (ecg : List ℚ) (rpeaks : List ℤ) (sampling_rate : ℕ)
    (cwt : List ℚ → List (List ℚ)) (h1 : rpeaks.length = 1) :
    (∃ w, ecg_delineate ecg rpeaks sampling_rate "dwt" cwt = .ok w ∧
      ∀ f ∈ w.2, f.2 = ([] : List ℤ)) ∧
    ecg_delineate ecg rpeaks sampling_rate "cwt" cwt = .error .valueError := by
  obtain ⟨r, rfl⟩ := List.length_eq_one.mp h1
  constructor
  · refine ⟨?_, ?_, ?_⟩
    · exact (signal_formatpeaks_sm (removeNaN (dwtEmptyWaves.map
        (fun f => (f.1, f.2.map some)))) ecg.length,
        removeNaN (dwtEmptyWaves.map (fun f => (f.1, f.2.map some))))
    · unfold ecg_delineate
      rw [if_neg (by decide), if_neg (by decide), if_pos (by decide)]
      rw [show dwt_ecg_delinator ecg [r] sampling_rate 2000 = .ok dwtEmptyWaves from
        dwt_single_rpeak_ok ecg r sampling_rate]
      rfl
    · intro f hf
      simp only [dwtEmptyWaves, removeNaN, List.map_map, List.map_cons, List.map_nil,
        List.mem_cons, List.not_mem_nil, or_false] at hf
      rcases hf with h | h | h | h | h | h | h | h <;> subst h <;> rfl
  · exact cwt_single_rpeak_error ecg r sampling_rate cwt

/-- Witness for the amended claim C4 at a concrete three-sample signal. -/
theorem C4_witness :
    (∃ w, ecg_delineate [1, 5, 2] [1] 500 "dwt" (fun _ => []) = .ok w ∧
      ∀ f ∈ w.2, f.2 = ([] : List ℤ)) ∧
    ecg_delineate [1, 5, 2] [1] 500 "cwt" (fun _ => []) = .error .valueError :=
  C4_amended [1, 5, 2] [1] 500 (fun _ => []) rfl

/-! Claim C6: the rule computing the DWT QRS onset. -/

/-- The QRS onset rule exactly as the claim words it: over the window from
the P peak to R on the negated detail row, set the threshold at half the
value of the last local maximum and return the last sample before that
maximum whose negated value exceeds the threshold. -/
def qrsOnsetRuleAbove (row : List ℚ) (p r : ℤ) : Option ℤ :=
  let loc := pySlice row p r
  let neg := loc.map Neg.neg
  match (localMaxima neg).getLast? with
  | none => none
  | some m =>
    let eps := (1 / 2 : ℚ) * getQ neg m
    match ((List.range m).filter (fun j => eps < getQ neg j)).getLast? with
    | none => none
    | some c => some ((c : ℤ) + p)

/-- The QRS onset rule the code implements: identical, except that the
candidate samples are those whose negated value falls strictly below the
threshold, not above it. -/
def qrsOnsetRuleBelow (row : List ℚ) (p r : ℤ) : Option ℤ :=
  let loc := pySlice row p r
  let neg := loc.map Neg.neg
  match (localMaxima neg).getLast? with
  | none => none
  | some m =>
    let eps := (1 / 2 : ℚ) * getQ neg m
    match ((List.range m).filter (fun j => getQ neg j < eps)).getLast? with
    | none => none
    | some c => some ((c : ℤ) + p)

/-- The onset entry of one interval index as the code computes it, phrased
with total lookups (they agree with the Python list indexing whenever the
call returns). -/
def qrsOnsetEntry (rule : List ℚ → ℤ → ℤ → Option ℤ) (dwtmatr : List (List ℚ))
    (rowIdx : ℕ) (rpeaks : List ℤ) (ppeaks : List (Option ℤ)) (i : ℕ) : Option ℤ :=
  match ppeaks.getD i none with
  | none => none
  | some p => rule (dwtmatr.getD rowIdx []) p (rpeaks.getD i 0)

/-- Helper: a successful Python list access determines the optional lookup. -/
theorem pyIdx_ok_getElem {α : Type} (xs : List α) (i : ℕ) (v : α)
    (h : pyIdx xs i = .ok v) : xs[i]? = some v := by
  unfold pyIdx at h
  cases hg : xs.get? i with
  | none => rw [hg] at h; exact absurd h (by simp)
  | some w =>
    rw [hg] at h
    simp only [Except.ok.injEq] at h
    subst h
    rw [← List.get?_eq_getElem?]
    exact hg

/-- Helper: a successful last-element selection determines getLast?. -/
theorem lastOrErr_ok {α : Type} (xs : List α) (v : α) (h : lastOrErr xs = .ok v) :
    xs.getLast? = some v := by
  unfold lastOrErr at h
  cases hx : xs.getLast? with
  | none => rw [hx] at h; exact absurd h (by simp)
  | some y => rw [hx] at h; simp only [Except.ok.injEq] at h; rw [h]

/-- Helper: a successful first-element selection determines head?. -/
theorem headOrErr_ok {α : Type} (xs : List α) (v : α) (h : headOrErr xs = .ok v) :
    xs.head? = some v := by
  unfold headOrErr at h
  cases hx : xs.head? with
  | none => rw [hx] at h; exact absurd h (by simp)
  | some y => rw [hx] at h; simp only [Except.ok.injEq] at h; rw [h]

/-- Helper: a successful onset step computes the below-threshold rule. -/
theorem qrsOnsetStep_ok (dwtmatr : List (List ℚ)) (rowIdx : ℕ) (pk : Option ℤ)
    (ri : ℤ) (v : Option ℤ) (h : qrsOnsetStep dwtmatr rowIdx pk ri = .ok v) :
    v = (match pk with
      | none => none
      | some p => qrsOnsetRuleBelow (dwtmatr.getD rowIdx []) p ri) := by
  cases pk with
  | none =>
    simp only [qrsOnsetStep, pure, Except.pure, Except.ok.injEq] at h
    exact h.symm
  | some p =>
    show v = qrsOnsetRuleBelow (dwtmatr.getD rowIdx []) p ri
    simp only [qrsOnsetStep, Bind.bind, Except.bind] at h
    split at h
    next e heq => exact absurd h (by simp)
    next row heq =>
      have hgrow : dwtmatr[rowIdx]? = some row := pyIdx_ok_getElem dwtmatr rowIdx row heq
      split at h
      next e heq2 => exact absurd h (by simp)
      next m heq2 =>
        split at h
        next e heq3 => exact absurd h (by simp)
        next c heq3 =>
          simp only [pure, Except.pure, Except.ok.injEq] at h
          rw [← h]
          simp only [qrsOnsetRuleBelow, List.getD_eq_getElem?_getD, hgrow,
            Option.getD_some, lastOrErr_ok _ _ heq2, lastOrErr_ok _ _ heq3]

/-- Claim C6, loop part: when dwt_delinate_qrs_bounds returns, its onset
column is exactly the below-threshold rule applied to each interval. -/
theorem dwtQrsAux_onsets (dwtmatr : List (List ℚ)) (rowIdx : ℕ) (rpeaks : List ℤ)
    (ppeaks tpeaks : List (Option ℤ)) :
    ∀ (idxs : List ℕ) (ons offs : List (Option ℤ)),
      dwtQrsAux dwtmatr rowIdx rpeaks ppeaks tpeaks idxs = .ok (ons, offs) →
      ons = idxs.map (qrsOnsetEntry qrsOnsetRuleBelow dwtmatr rowIdx rpeaks ppeaks) := by
  intro idxs
  induction idxs with
  | nil =>
    intro ons offs h
    simp only [dwtQrsAux, Except.ok.injEq, Prod.mk.injEq] at h
    simp [← h.1]
  | cons i rest ih =>
    intro ons offs h
    simp only [dwtQrsAux, Bind.bind, Except.bind] at h
    split at h
    next e hpk => exact absurd h (by simp)
    next pk hpk =>
      split at h
      next e hri => exact absurd h (by simp)
      next ri hri =>
        match pk, hpk with
        | none, hpk =>
          dsimp only at h
          split at h
          next e hr => exact absurd h (by simp)
          next t hr =>
            simp only [Except.ok.injEq, Prod.mk.injEq] at h
            obtain ⟨h1, h2⟩ := h
            subst h1
            simp only [List.map_cons]
            refine congrArg₂ _ ?_ (ih t.1 t.2 hr)
            simp [qrsOnsetEntry, pyIdx_ok_getElem ppeaks i none hpk]
        | some p, hpk =>
          dsimp only at h
          split at h
          next e hon => exact absurd h (by simp)
          next onset hon =>
            split at h
            next e htk => exact absurd h (by simp)
            next tk htk =>
              split at h
              next e hoff => exact absurd h (by simp)
              next offv hoff =>
                split at h
                next e hr => exact absurd h (by simp)
                next t hr =>
                  simp only [Except.ok.injEq, Prod.mk.injEq] at h
                  obtain ⟨h1, h2⟩ := h
                  subst h1
                  simp only [List.map_cons]
                  refine congrArg₂ _ ?_ (ih t.1 t.2 hr)
                  rw [qrsOnsetStep_ok dwtmatr rowIdx (some p) ri onset hon]
                  simp [qrsOnsetEntry, pyIdx_ok_getElem ppeaks i (some p) hpk,
                    pyIdx_ok_getElem rpeaks i ri hri]

/-- Claim C6 as stated: whenever the QRS bounds search returns, every onset
entry follows the above-threshold rule (last sample before the right-most
maximum whose negated value exceeds half that maximum). -/
def claimC6 : Prop :=
  ∀ (rpeaks : List ℤ) (dwtmatr : List (List ℚ)) (ppeaks tpeaks : List (Option ℤ))
    (sampling_rate : ℕ) (ons offs : List (Option ℤ)),
    dwt_delinate_qrs_bounds rpeaks dwtmatr ppeaks tpeaks sampling_rate = .ok (ons, offs) →
    ons = (List.range (rpeaks.length - 1)).map
      (qrsOnsetEntry qrsOnsetRuleAbove dwtmatr
        (2 + dwt_compensate_degree sampling_rate) rpeaks ppeaks)

/-- Decomposition matrix of the concrete instance used for claim C6. -/
def c6dm : List (List ℚ) :=
  [List.replicate 9 0, List.replicate 9 0,
    [-(1 / 5), -(3 / 5), -(1 / 10), -1, -(1 / 5), 0, 0, 0, 0]]

/-- Claim C6 is false as stated: on the concrete window whose negated
detail row reads 1/5, 3/5, 1/10, 1, 1/5 the last local maximum is at index
3 with threshold 1/2; the code returns index 2 (the last sample below the
threshold), while the rule of the claim text would return index 1 (the last
sample above it). -/
theorem C6_counterexample : ¬ claimC6 := by
  intro h
  have e1 : dwt_delinate_qrs_bounds [5, 8] c6dm [some 0] [none] 250
      = .ok ([some 2], [none]) :=
    of_decide_eq_true (by with_unfolding_all rfl)
  have h1 := h [5, 8] c6dm [some 0] [none] 250 [some 2] [none] e1
  have e2 : (List.range ([5, 8].length - 1)).map
      (qrsOnsetEntry qrsOnsetRuleAbove c6dm
        (2 + dwt_compensate_degree 250) [5, 8] [some 0]) = [some 1] :=
    of_decide_eq_true (by with_unfolding_all rfl)
  exact absurd (h1.trans e2) (by decide)

/-- Claim C6 amended: whenever the QRS bounds search returns, every onset
entry is computed over the window from the P peak to R on the negated
degree 2 plus compensation detail row, with the threshold at 50 percent of
the last local maximum, returning the last sample before that maximum whose
negated value falls strictly below the threshold (not above it as the claim
states). -/
theorem C6_amended (rpeaks : List ℤ) (dwtmatr : List (List ℚ))
    (ppeaks tpeaks : List (Option ℤ)) (sampling_rate : ℕ) (ons offs : List (Option ℤ))
    (hok : dwt_delinate_qrs_bounds rpeaks dwtmatr ppeaks tpeaks sampling_rate
      = .ok (ons, offs)) :
    ons = (List.range (rpeaks.length - 1)).map
      (qrsOnsetEntry qrsOnsetRuleBelow dwtmatr
        (2 + dwt_compensate_degree sampling_rate) rpeaks ppeaks) := by
  unfold dwt_delinate_qrs_bounds at hok
  exact dwtQrsAux_onsets dwtmatr (2 + dwt_compensate_degree sampling_rate)
    rpeaks ppeaks tpeaks (List.range (rpeaks.length - 1)) ons offs hok

/-- Witness for the amended claim C6 at the concrete instance: the onset
column is the below-threshold rule column. -/
theorem C6_witness :
    ∃ ons offs : List (Option ℤ),
      dwt_delinate_qrs_bounds [5, 8] c6dm [some 0] [none] 250 = .ok (ons, offs) ∧
      ons = (List.range ([5, 8].length - 1)).map
        (qrsOnsetEntry qrsOnsetRuleBelow c6dm
          (2 + dwt_compensate_degree 250) [5, 8] [some 0]) := by
  have e1 : dwt_delinate_qrs_bounds [5, 8] c6dm [some 0] [none] 250
      = .ok ([some 2], [none]) :=
    of_decide_eq_true (by with_unfolding_all rfl)
  exact ⟨[some 2], [none], e1,
    C6_amended [5, 8] c6dm [some 0] [none] 250 [some 2] [none] e1⟩

/-! Claim C5: skip-on-failure in the CWT onset and offset search. -/

/-- A peak qualifies for the onset search when its onset window produces at
least one maximum above the prominence floor. -/
def ooOnsetQualifies (cwtmatr : List (List ℚ)) (pt : String) (half : ℕ) (p : ℤ) : Bool :=
  match ooOnsetWindow cwtmatr pt half p with
  | .error _ => false
  | .ok w =>
    match ooOnsetPeaks w pt with
    | .error _ => false
    | .ok wt => wt.getLast?.isSome

/-- A peak qualifies for the offset search when its offset window produces
at least one maximum above the prominence floor. -/
def ooOffsetQualifies (cwtmatr : List (List ℚ)) (pt : String) (half : ℕ) (p : ℤ) : Bool :=
  match ooOffsetWindow cwtmatr pt half p with
  | .error _ => false
  | .ok w2 =>
    match ooOffsetPeaks w2 pt with
    | .error _ => false
    | .ok wt2 => wt2.head?.isSome

/-- Claim C5, loop part: when the search returns, the onsets list holds one
entry exactly for each peak whose onset window has a qualifying maximum,
and the offsets list one entry exactly for each peak qualifying on both
sides; non-qualifying peaks are silently skipped, so both lists can be
shorter than the peak list. -/
theorem ooDelAux_lengths (cwtmatr : List (List ℚ)) (pt : String) (half : ℕ) :
    ∀ (peaks : List ℤ) (epsOn epsOff : Option ℚ) (ons offs : List ℤ),
      ooDelAux cwtmatr pt half peaks epsOn epsOff = .ok (ons, offs) →
      ons.length = (peaks.filter (fun p => ooOnsetQualifies cwtmatr pt half p)).length ∧
      offs.length = (peaks.filter (fun p => ooOnsetQualifies cwtmatr pt half p
        && ooOffsetQualifies cwtmatr pt half p)).length := by
  intro peaks
  induction peaks with
  | nil =>
    intro epsOn epsOff ons offs h
    simp only [ooDelAux, Except.ok.injEq, Prod.mk.injEq] at h
    simp [← h.1, ← h.2]
  | cons p rest ih =>
    intro epsOn epsOff ons offs h
    simp only [ooDelAux, Bind.bind, Except.bind] at h
    split at h
    next e hw => exact absurd h (by simp)
    next w hw =>
      split at h
      next e hwt => exact absurd h (by simp)
      next wt hwt =>
        split at h
        next hlast =>
          have IH := ih epsOn epsOff ons offs h
          have hq : ooOnsetQualifies cwtmatr pt half p = false := by
            unfold ooOnsetQualifies
            simp [hw, hwt, hlast]
          simp [List.filter_cons, hq, IH.1, IH.2]
        next lastPk hlast =>
          have hq : ooOnsetQualifies cwtmatr pt half p = true := by
            unfold ooOnsetQualifies
            simp [hw, hwt, hlast]
          split at h
          next e hov => exact absurd h (by simp)
          next ov hov =>
            split at h
            next e hw2 => exact absurd h (by simp)
            next w2 hw2 =>
              split at h
              next e hwt2 => exact absurd h (by simp)
              next wt2 hwt2 =>
                split at h
                next hhead =>
                  have hq2 : ooOffsetQualifies cwtmatr pt half p = false := by
                    unfold ooOffsetQualifies
                    simp [hw2, hwt2, hhead]
                  split at h
                  next e hr => exact absurd h (by simp)
                  next tail hr =>
                    simp only [Except.ok.injEq, Prod.mk.injEq] at h
                    obtain ⟨h1, h2⟩ := h
                    subst h1; subst h2
                    have IH := ih (some ov.2) epsOff tail.1 tail.2 hr
                    simp [List.filter_cons, hq, hq2, IH.1, IH.2]
                next firstPk hhead =>
                  have hq2 : ooOffsetQualifies cwtmatr pt half p = true := by
                    unfold ooOffsetQualifies
                    simp [hw2, hwt2, hhead]
                  split at h
                  next e hfv => exact absurd h (by simp)
                  next fv hfv =>
                    split at h
                    next e hr => exact absurd h (by simp)
                    next tail hr =>
                      simp only [Except.ok.injEq, Prod.mk.injEq] at h
                      obtain ⟨h1, h2⟩ := h
                      subst h1; subst h2
                      have IH := ih (some ov.2) (some fv.2) tail.1 tail.2 hr
                      simp [List.filter_cons, hq, hq2, IH.1, IH.2]

/-- Claim C5: in the CWT onset and offset search, every peak without a
qualifying maximum in its half-wave window is silently skipped (nothing is
appended for it), so the returned lists enumerate exactly the qualifying
peaks and can be shorter than the input peak list. -/
theorem C5_skip_semantics (cwtmatr : List (List ℚ)) (peaks : List ℤ)
    (peak_type : String) (sampling_rate : ℕ) (ons offs : List ℤ)
    (hok : onset_offset_delineator cwtmatr peaks peak_type sampling_rate = .ok (ons, offs)) :
    ons.length = (peaks.filter
      (fun p => ooOnsetQualifies cwtmatr peak_type (sampling_rate / 10) p)).length ∧
    offs.length = (peaks.filter
      (fun p => ooOnsetQualifies cwtmatr peak_type (sampling_rate / 10) p
        && ooOffsetQualifies cwtmatr peak_type (sampling_rate / 10) p)).length := by
  unfold onset_offset_delineator at hok
  exact ooDelAux_lengths cwtmatr peak_type (sampling_rate / 10) peaks none none ons offs hok

/-- Transform matrix of the concrete witness input of claim C5. -/
def c5cwtm : List (List ℚ) :=
  [List.replicate 20 0, List.replicate 20 0, List.replicate 20 0, List.replicate 20 0,
    [0, 0, 0, 0, -2, 0, -1, 0, 0, 3, 0, 0, 0, 0, 0, 0, 0, 0, 0, 0]]

/-- Witness for claim C5: of two T peaks the second has no qualifying
maximum in either window and is skipped, so both returned lists have a
single entry. -/
theorem C5_witness :
    ∃ ons offs : List ℤ,
      onset_offset_delineator c5cwtm [8, 16] "tpeaks" 50 = .ok (ons, offs) ∧
      ons.length = 1 ∧ offs.length = 1 ∧
      ([8, 16].filter (fun p => ooOnsetQualifies c5cwtm "tpeaks" 5 p)).length = 1 := by
  have e : onset_offset_delineator c5cwtm [8, 16] "tpeaks" 50 = .ok ([5], [10]) :=
    of_decide_eq_true (by with_unfolding_all rfl)
  have hl := C5_skip_semantics c5cwtm [8, 16] "tpeaks" 50 [5] [10] e
  refine ⟨[5], [10], e, ?_, ?_, ?_⟩
  · rfl
  · rfl
  · exact (hl.1).symm

/-! Zero-signal propagation: on an all-zero signal every stage of the DWT
and derivative paths finds nothing. -/

/-- An all-zero list reads as zero at every position, default included. -/
theorem getQ_zero (xs : List ℚ) (hz : ∀ v ∈ xs, v = 0) (i : ℕ) : getQ xs i = 0 := by
  unfold getQ
  rw [List.getD_eq_getElem?_getD, ← List.get?_eq_getElem?]
  cases hg : xs.get? i with
  | none => rfl
  | some v => exact hz v (List.get?_mem hg)

/-- An all-zero list reads as zero at every signed position as well. -/
theorem getQZ_zero (xs : List ℚ) (hz : ∀ v ∈ xs, v = 0) (i : ℤ) : getQZ xs i = 0 := by
  unfold getQZ
  split
  · exact getQ_zero xs hz _
  · rfl

/-- Slicing preserves the all-zero property. -/
theorem pySlice_zero (xs : List ℚ) (hz : ∀ v ∈ xs, v = 0) (s e : ℤ) :
    ∀ v ∈ pySlice xs s e, v = 0 := by
  intro v hv
  unfold pySlice at hv
  exact hz v (List.mem_of_mem_drop (List.mem_of_mem_take hv))

/-- Mapping with the absolute value preserves the all-zero property. -/
theorem map_abs_zero (xs : List ℚ) (hz : ∀ v ∈ xs, v = 0) :
    ∀ v ∈ xs.map (fun v => |v|), v = 0 := by
  intro v hv
  obtain ⟨w, hw, rfl⟩ := List.mem_map.mp hv
  rw [hz w hw]
  simp

/-- Mapping with negation preserves the all-zero property. -/
theorem map_neg_zero (xs : List ℚ) (hz : ∀ v ∈ xs, v = 0) :
    ∀ v ∈ xs.map Neg.neg, v = 0 := by
  intro v hv
  obtain ⟨w, hw, rfl⟩ := List.mem_map.mp hv
  rw [hz w hw]
  simp

/-- The local-maxima loop finds nothing in an all-zero sequence. -/
theorem localMaximaAux_zero (x : List ℚ) (hz : ∀ v ∈ x, v = 0) (imax : ℕ) :
    ∀ (fuel i : ℕ), localMaximaAux x imax fuel i = [] := by
  intro fuel
  induction fuel with
  | zero => intro i; rfl
  | succ n ih =>
    intro i
    unfold localMaximaAux
    rw [getQ_zero x hz (i - 1), getQ_zero x hz i]
    simp [ih]

/-- The scipy peak detector finds nothing in an all-zero sequence. -/
theorem localMaxima_zero (x : List ℚ) (hz : ∀ v ∈ x, v = 0) : localMaxima x = [] :=
  localMaximaAux_zero x hz _ _ _

/-- One T or P peak-search step on an all-zero detail row is undefined. -/
theorem dwtTpPeakStep_zero (row : List ℚ) (hz : ∀ v ∈ row, v = 0) (s e : ℤ)
    (w2 : ℚ) (tf : Bool) : dwtTpPeakStep row s e w2 tf = .ok none := by
  unfold dwtTpPeakStep
  have hloc := pySlice_zero row hz s e
  by_cases hemp : (pySlice row s e).isEmpty
  · rw [if_pos hemp]
  · rw [if_neg hemp]
    have hmax : ∃ m, (pySlice row s e).max? = some m := by
      cases hm : (pySlice row s e).max? with
      | none =>
        exfalso
        have he : pySlice row s e = [] := List.max?_eq_none_iff.mp hm
        rw [he] at hemp
        exact hemp rfl
      | some m => exact ⟨m, rfl⟩
    obtain ⟨m, hm⟩ := hmax
    have hlm : localMaxima ((pySlice row s e).map (fun v => |v|)) = [] :=
      localMaxima_zero _ (map_abs_zero _ hloc)
    have h0 : getQ (pySlice row s e) 0 = 0 := getQ_zero _ hloc 0
    simp [Bind.bind, Except.bind, pyMax, hm, hlm, h0, tpPairsAux]

/-- The T and P peak search returns an undefined peak for every interval
when every decomposition row it touches is all zero. -/
theorem dwtTpPeaksAux_zero (dwtmatr : List (List ℚ)) (deg_t deg_p : ℕ)
    (sb ph : ℕ) (ht : deg_t < dwtmatr.length) (hp : deg_p < dwtmatr.length)
    (hmat : ∀ row ∈ dwtmatr, ∀ v ∈ row, v = 0) :
    ∀ pairs : List (ℤ × ℤ),
      dwtTpPeaksAux dwtmatr deg_t deg_p sb ph pairs
        = .ok (pairs.map (fun _ => none), pairs.map (fun _ => none)) := by
  have hrow_t : ∃ row, dwtmatr.get? deg_t = some row ∧ ∀ v ∈ row, v = 0 := by
    cases hg : dwtmatr.get? deg_t with
    | none => exact absurd (List.get?_eq_none.mp hg) (by omega)
    | some row => exact ⟨row, rfl, hmat row (List.get?_mem hg)⟩
  have hrow_p : ∃ row, dwtmatr.get? deg_p = some row ∧ ∀ v ∈ row, v = 0 := by
    cases hg : dwtmatr.get? deg_p with
    | none => exact absurd (List.get?_eq_none.mp hg) (by omega)
    | some row => exact ⟨row, rfl, hmat row (List.get?_mem hg)⟩
  obtain ⟨row_t, hgt, hzt⟩ := hrow_t
  obtain ⟨row_p, hgp, hzp⟩ := hrow_p
  intro pairs
  induction pairs with
  | nil => rfl
  | cons pr rest ih =>
    obtain ⟨r0, r1⟩ := pr
    simp only [dwtTpPeaksAux, Bind.bind, Except.bind, getRow, pyIdx, hgt, hgp,
      dwtTpPeakStep_zero row_t hzt _ _ _ _, dwtTpPeakStep_zero row_p hzp _ _ _ _, ih]
    rfl

/-- The QRS bounds loop appends an undefined onset and, by the continue of
the source, no offset at all for every interval whose P peak is
undefined. -/
theorem dwtQrsAux_allNone (dwtmatr : List (List ℚ)) (rowIdx : ℕ) (rpeaks : List ℤ)
    (ppeaks tpeaks : List (Option ℤ)) :
    ∀ idxs : List ℕ,
      (∀ i ∈ idxs, rpeaks.get? i ≠ none) →
      (∀ i ∈ idxs, ppeaks.get? i = some none) →
      dwtQrsAux dwtmatr rowIdx rpeaks ppeaks tpeaks idxs
        = .ok (idxs.map (fun _ => none), []) := by
  intro idxs
  induction idxs with
  | nil => intro _ _; rfl
  | cons i rest ih =>
    intro hr hp
    have hri : ∃ r, rpeaks.get? i = some r := by
      cases hg : rpeaks.get? i with
      | none => exact absurd hg (hr i (by simp))
      | some r => exact ⟨r, rfl⟩
    obtain ⟨r, hri⟩ := hri
    simp only [dwtQrsAux, Bind.bind, Except.bind, pyIdx, hri,
      hp i (by simp), pure, Except.pure,
      ih (fun j hj => hr j (by simp [hj])) (fun j hj => hp j (by simp [hj]))]
    rfl

/-- The P/T onset and offset loop on an all-undefined peak list returns
all-undefined onsets and an empty offsets list. -/
theorem dwtTpOnOffAux_allNone (dwtmatr : List (List ℚ)) (rowOn rowOff : ℕ)
    (durS durOffS : ℤ) (onW offW : ℚ) :
    ∀ peaks : List (Option ℤ), (∀ o ∈ peaks, o = none) →
      dwtTpOnOffAux dwtmatr rowOn rowOff durS durOffS onW offW peaks
        = .ok (peaks.map (fun _ => none), []) := by
  intro peaks
  induction peaks with
  | nil => intro _; rfl
  | cons o rest ih =>
    intro hall
    have ho : o = none := hall o (by simp)
    subst ho
    simp only [dwtTpOnOffAux, Bind.bind, Except.bind,
      ih (fun x hx => hall x (by simp [hx]))]
    rfl

/-- Both lists of the T and P peak search have one slot per interval. -/
theorem dwtTpPeaksAux_lengths (dwtmatr : List (List ℚ)) (deg_t deg_p sb ph : ℕ) :
    ∀ (pairs : List (ℤ × ℤ)) (tps pps : List (Option ℤ)),
      dwtTpPeaksAux dwtmatr deg_t deg_p sb ph pairs = .ok (tps, pps) →
      tps.length = pairs.length ∧ pps.length = pairs.length := by
  intro pairs
  induction pairs with
  | nil =>
    intro tps pps h
    simp only [dwtTpPeaksAux, Except.ok.injEq, Prod.mk.injEq] at h
    simp [← h.1, ← h.2]
  | cons pr rest ih =>
    intro tps pps h
    obtain ⟨r0, r1⟩ := pr
    simp only [dwtTpPeaksAux, Bind.bind, Except.bind] at h
    split at h
    next e h1 => exact absurd h (by simp)
    next rowt h1 =>
      split at h
      next e h2 => exact absurd h (by simp)
      next t h2 =>
        split at h
        next e h3 => exact absurd h (by simp)
        next rowp h3 =>
          split at h
          next e h4 => exact absurd h (by simp)
          next p h4 =>
            split at h
            next e h5 => exact absurd h (by simp)
            next tail h5 =>
              simp only [Except.ok.injEq, Prod.mk.injEq] at h
              obtain ⟨ha, hb⟩ := h
              subst ha; subst hb
              have IH := ih tail.1 tail.2 h5
              simp [IH.1, IH.2]

/-- The resampled point list of an all-undefined peak list is empty. -/
theorem dwt_resample_points_allNone (peaks : List (Option ℤ))
    (hall : ∀ o ∈ peaks, o = none) (sr dsr : ℕ) :
    dwt_resample_points peaks sr dsr = [] := by
  unfold dwt_resample_points
  have : peaks.filterMap id = [] := by
    rw [List.filterMap_eq_nil]
    intro o ho
    rw [hall o ho]
    rfl
  rw [this]
  rfl

/-- Padded addition preserves the all-zero property. -/
theorem listAddPad_zero : ∀ xs ys : List ℚ, (∀ v ∈ xs, v = 0) → (∀ v ∈ ys, v = 0) →
    ∀ v ∈ listAddPad xs ys, v = 0
  | [], ys, _, hy => by simpa [listAddPad] using hy
  | x :: xs, [], hx, _ => by simpa [listAddPad] using hx
  | x :: xs, y :: ys, hx, hy => by
    intro v hv
    simp only [listAddPad, List.mem_cons] at hv
    rcases hv with rfl | hv
    · rw [hx x (by simp), hy y (by simp)]; ring
    · exact listAddPad_zero xs ys (fun w hw => hx w (by simp [hw]))
        (fun w hw => hy w (by simp [hw])) v hv

/-- The convolution accumulator preserves the all-zero property of an
all-zero signal. -/
theorem convolveAux_zero (s : List ℚ) (hs : ∀ v ∈ s, v = 0) :
    ∀ (k : List ℚ) (t : ℕ) (acc : List ℚ), (∀ v ∈ acc, v = 0) →
      ∀ v ∈ convolveAux s k t acc, v = 0 := by
  intro k
  induction k with
  | nil => intro t acc hacc; exact hacc
  | cons c ks ih =>
    intro t acc hacc
    simp only [convolveAux]
    apply ih
    split
    · exact hacc
    · apply listAddPad_zero _ _ hacc
      intro v hv
      rcases List.mem_append.mp hv with hv | hv
      · exact List.eq_of_mem_replicate hv
      · obtain ⟨w, hw, rfl⟩ := List.mem_map.mp hv
        rw [hs w hw]; ring

/-- Convolving an all-zero signal yields an all-zero signal. -/
theorem convolve_zero (s k : List ℚ) (hs : ∀ v ∈ s, v = 0) :
    ∀ v ∈ convolve s k, v = 0 :=
  convolveAux_zero s hs k 0 _ (fun v hv => List.eq_of_mem_replicate hv)

/-- The time shift preserves the all-zero property. -/
theorem timeshift_zero (sf : List ℚ) (hs : ∀ v ∈ sf, v = 0) (td : ℕ) :
    ∀ v ∈ timeshift sf td, v = 0 := by
  intro v hv
  unfold timeshift at hv
  rcases List.mem_append.mp hv with hv | hv
  · exact hs v (List.mem_of_mem_drop hv)
  · exact hs v (List.mem_of_mem_drop hv)

/-- The H filter maps all-zero to all-zero. -/
theorem applyHFilter_zero (sig : List ℚ) (hs : ∀ v ∈ sig, v = 0) (power : ℕ) :
    ∀ v ∈ applyHFilter sig power, v = 0 :=
  timeshift_zero _ (convolve_zero _ _ hs) _

/-- The G filter maps all-zero to all-zero. -/
theorem applyGFilter_zero (sig : List ℚ) (hs : ∀ v ∈ sig, v = 0) (power : ℕ) :
    ∀ v ∈ applyGFilter sig power, v = 0 :=
  timeshift_zero _ (convolve_zero _ _ hs) _

/-- Every scale of the decomposition of an all-zero signal is all zero. -/
theorem multiscalesAux_zero : ∀ (n : ℕ) (inter : List ℚ) (deg : ℕ),
    (∀ v ∈ inter, v = 0) → ∀ row ∈ multiscalesAux n inter deg, ∀ v ∈ row, v = 0
  | 0, inter, deg, _ => by simp [multiscalesAux]
  | n + 1, inter, deg, hz => by
    intro row hrow
    simp only [multiscalesAux, List.mem_cons] at hrow
    rcases hrow with rfl | hrow
    · exact applyGFilter_zero inter hz deg
    · exact multiscalesAux_zero n (applyHFilter inter deg) (deg + 1)
        (applyHFilter_zero inter hz deg) row hrow

/-- The decomposition loop always returns one row per degree. -/
theorem multiscalesAux_length : ∀ (n : ℕ) (inter : List ℚ) (deg : ℕ),
    (multiscalesAux n inter deg).length = n
  | 0, _, _ => rfl
  | n + 1, inter, deg => by
    simp [multiscalesAux, multiscalesAux_length n]

/-- The decomposition matrix has exactly max_degree rows. -/
theorem dwt_compute_multiscales_length (ecg : List ℚ) (max_degree : ℕ) :
    (dwt_compute_multiscales ecg max_degree).length = max_degree := by
  unfold dwt_compute_multiscales
  rw [List.length_map]
  exact multiscalesAux_length _ _ _

/-- Every row of the decomposition of an all-zero signal is all zero. -/
theorem dwt_compute_multiscales_zero (ecg : List ℚ) (hz : ∀ v ∈ ecg, v = 0)
    (max_degree : ℕ) :
    ∀ row ∈ dwt_compute_multiscales ecg max_degree, ∀ v ∈ row, v = 0 := by
  intro row hrow
  unfold dwt_compute_multiscales at hrow
  obtain ⟨row0, hrow0, rfl⟩ := List.mem_map.mp hrow
  intro v hv
  exact multiscalesAux_zero max_degree ecg 0 hz row0 hrow0 v (List.mem_of_mem_take hv)

/-- Resampling an all-zero signal yields an all-zero signal. -/
theorem signal_resample_zero (sig : List ℚ) (hz : ∀ v ∈ sig, v = 0) (sr dsr : ℕ) :
    ∀ v ∈ signal_resample sig sr dsr, v = 0 := by
  intro v hv
  unfold signal_resample at hv
  obtain ⟨i, _, rfl⟩ := List.mem_map.mp hv
  exact getQ_zero sig hz _

/-- On an all-zero signal of any length, with any R-peak list and any
original sampling rate, the DWT pipeline returns with every feature list
empty and raises nothing. -/
theorem dwt_zero_signal (N : ℕ) (rpeaks : List ℤ) (sr : ℕ) :
    dwt_ecg_delinator (List.replicate N 0) rpeaks sr 2000 = .ok dwtEmptyWaves := by
  have hzsig : ∀ v ∈ List.replicate N (0 : ℚ), v = 0 :=
    fun v hv => List.eq_of_mem_replicate hv
  have hzr := signal_resample_zero (List.replicate N 0) hzsig sr 2000
  have hmat := dwt_compute_multiscales_zero _ hzr 9
  have hlen := dwt_compute_multiscales_length (signal_resample (List.replicate N 0) sr 2000) 9
  set ecgR := signal_resample (List.replicate N 0) sr 2000 with hecgR
  set dm := dwt_compute_multiscales ecgR 9 with hdm
  set rp := dwt_resample_points (List.map some rpeaks) sr 2000 with hrpdef
  set P := rp.zip rp.tail with hPdef
  have hcomp : dwt_compensate_degree 2000 = 3 :=
    of_decide_eq_true (by with_unfolding_all rfl)
  have hPlen : P.length = rp.length - 1 := by
    rw [hPdef, List.length_zip, List.length_tail]
    omega
  have htp : dwt_delinate_tp_peaks rp dm 2000
      = .ok (P.map (fun _ => none), P.map (fun _ => none)) := by
    simp only [dwt_delinate_tp_peaks, hcomp]
    exact dwtTpPeaksAux_zero dm 6 5 _ _ (by omega) (by omega) hmat P
  have hqrs : dwt_delinate_qrs_bounds rp dm (P.map (fun _ => none))
      (P.map (fun _ => none)) 2000
      = .ok ((List.range (rp.length - 1)).map (fun _ => none), []) := by
    simp only [dwt_delinate_qrs_bounds, hcomp]
    apply dwtQrsAux_allNone
    · intro i hi
      intro hnone
      have h1 := List.get?_eq_none.mp hnone
      have h2 := List.mem_range.mp hi
      omega
    · intro i hi
      have hi2 : i < P.length := by rw [hPlen]; exact List.mem_range.mp hi
      rw [List.get?_map]
      cases hg : P.get? i with
      | none => exact absurd (List.get?_eq_none.mp hg) (by omega)
      | some x => rfl
  have hallP : ∀ o ∈ P.map (fun _ => (none : Option ℤ)), o = none := by
    intro o ho
    obtain ⟨x, _, rfl⟩ := List.mem_map.mp ho
    rfl
  have hallR : ∀ o ∈ (List.range (rp.length - 1)).map (fun _ => (none : Option ℤ)),
      o = none := by
    intro o ho
    obtain ⟨x, _, rfl⟩ := List.mem_map.mp ho
    rfl
  have hpof : dwt_delinate_tp_onsets_offsets (P.map (fun _ => none)) dm 2000
      (3 / 10) (3 / 10) (2 / 5) (2 / 5) 2 2
      = .ok ((P.map (fun _ => (none : Option ℤ))).map (fun _ => (none : Option ℤ)), []) := by
    simp only [dwt_delinate_tp_onsets_offsets, hcomp]
    exact dwtTpOnOffAux_allNone dm _ _ _ _ _ _ _ hallP
  have htof : dwt_delinate_tp_onsets_offsets (P.map (fun _ => none)) dm 2000
      (3 / 5) (3 / 10) (3 / 5) (2 / 5) 2 2
      = .ok ((P.map (fun _ => (none : Option ℤ))).map (fun _ => (none : Option ℤ)), []) := by
    simp only [dwt_delinate_tp_onsets_offsets, hcomp]
    exact dwtTpOnOffAux_allNone dm _ _ _ _ _ _ _ hallP
  have hallPP : ∀ o ∈ (P.map (fun _ => (none : Option ℤ))).map (fun _ => (none : Option ℤ)),
      o = none := by
    intro o ho
    obtain ⟨x, _, rfl⟩ := List.mem_map.mp ho
    rfl
  have hres1 := dwt_resample_points_allNone _ hallP 2000 sr
  have hres2 := dwt_resample_points_allNone _ hallR 2000 sr
  have hres3 := dwt_resample_points_allNone _ hallPP 2000 sr
  simp only [dwt_ecg_delinator, Bind.bind, Except.bind, ← hecgR, ← hdm, ← hrpdef, ← hPdef,
    htp, hqrs, hpof, htof, hres1, hres2, hres3]
  simp [dwtEmptyWaves, dwt_resample_points]

/-- The local-maxima detector of the derivative method finds nothing in an
all-zero segment, whatever the height floor, because the strict neighbour
inequalities fail everywhere. -/
theorem signal_findpeaks_sm_zero (x : List ℚ) (hz : ∀ v ∈ x, v = 0) (h : ℚ) :
    signal_findpeaks_sm x h = [] := by
  unfold signal_findpeaks_sm
  rw [List.filter_eq_nil]
  intro i hi
  simp only [getQ_zero x hz, decide_eq_true_eq]
  rintro ⟨-, -, hlt, -⟩
  exact absurd hlt (lt_irrefl 0)

/-- Every per-beat search of the derivative method is undefined on an
all-zero signal. -/
theorem derivBeat_zero (N sr : ℕ) (r : ℤ) :
    derivBeat (List.replicate N 0) sr r = ⟨none, none, none, none, none, none⟩ := by
  have hzsig : ∀ v ∈ List.replicate N (0 : ℚ), v = 0 :=
    fun v hv => List.eq_of_mem_replicate hv
  set hb := epochs_create_sm (List.replicate N 0) r sr with hhb
  have hsamp : ∀ v ∈ hb.samples, v = 0 := by
    intro v hv
    rw [hhb] at hv
    simp only [epochs_create_sm, List.mem_map, List.mem_range] at hv
    obtain ⟨j, -, rfl⟩ := hv
    exact getQZ_zero _ hzsig _
  have hmz : ∀ v ∈ hb.samples.map Neg.neg, v = 0 := map_neg_zero _ hsamp
  have htk : ∀ v ∈ List.take (hb.anchor + 1) (hb.samples.map Neg.neg), v = 0 :=
    fun v hv => hmz v (List.mem_of_mem_take hv)
  have hdr : ∀ v ∈ List.drop hb.anchor (hb.samples.map Neg.neg), v = 0 :=
    fun v hv => hmz v (List.mem_of_mem_drop hv)
  have hq : ∀ R, ecg_delineator_derivative_Q r hb R = (none, none) := by
    intro R
    simp [ecg_delineator_derivative_Q, signal_findpeaks_sm_zero _ htk]
  have hs : ecg_delineator_derivative_S r hb = (none, none) := by
    simp [ecg_delineator_derivative_S, signal_findpeaks_sm_zero _ hdr]
  simp only [derivBeat]
  rw [← hhb, hq, hs]
  simp [ecg_delineator_derivative_P, ecg_delineator_derivative_T,
    ecg_delineator_derivative_P_onset, ecg_delineator_derivative_T_offset]

/-- The derivative path on an all-zero signal: six feature lists, one
undefined slot per R-peak. -/
theorem derivative_zero_signal (N sr : ℕ) (rpeaks : List ℤ) :
    ecg_delineator_derivative (List.replicate N 0) rpeaks sr
      = [("ECG_P_Peaks", rpeaks.map (fun _ => none)),
        ("ECG_Q_Peaks", rpeaks.map (fun _ => none)),
        ("ECG_S_Peaks", rpeaks.map (fun _ => none)),
        ("ECG_T_Peaks", rpeaks.map (fun _ => none)),
        ("ECG_P_Onsets", rpeaks.map (fun _ => none)),
        ("ECG_T_Offsets", rpeaks.map (fun _ => none))] := by
  simp only [ecg_delineator_derivative, List.map_map]
  simp [Function.comp_def, derivBeat_zero]

/-- Removing the undefined entries of an all-undefined feature list leaves
the empty list. -/
theorem filterMap_id_of_map_none {α : Type} (xs : List α) :
    (xs.map (fun _ => (none : Option ℤ))).filterMap id = [] := by
  rw [List.filterMap_eq_nil]
  intro o ho
  obtain ⟨x, -, rfl⟩ := List.mem_map.mp ho
  rfl

/-- Claim C3 as stated, at its falsifiable scenario: on an all-zero signal
of any length, with arbitrary R-peaks, every accepted method returns with
all features undefined (exiting the final cleaning loop, all feature index
lists empty) and raises no exception. The continuous wavelet transform of
an all-zero signal is an all-zero matrix, so the external transform
collaborator is constrained to all-zero rows on this input. -/
def claimC3 : Prop :=
  ∀ (N sr : ℕ) (rpeaks : List ℤ) (method : String) (cwtf : List ℚ → List (List ℚ)),
    acceptedMethod method →
    (∀ row ∈ cwtf (List.replicate N 0), ∀ v ∈ row, v = 0) →
    ∃ w, ecg_delineate (List.replicate N 0) rpeaks sr method cwtf = .ok w ∧
      ∀ f ∈ w.2, f.2 = []

/-- Claim C3 is false as stated: on a 40-sample all-zero signal at 200 Hz
with R-peaks 5 and 35, the cwt method raises IndexError, because the
all-zero window between the two R-peaks yields an empty significant-peak
group and the T-peak selection reads the first element of that empty
group with no handler. -/
theorem C3_counterexample : ¬ claimC3 := by
  intro hcl
  obtain ⟨w, hw, -⟩ := hcl 40 200 [5, 35] "cwt"
    (fun _ => List.replicate 5 (List.replicate 40 0))
    (Or.inr (Or.inr (Or.inl rfl)))
    (by
      intro row hrow v hv
      rw [List.eq_of_mem_replicate hrow] at hv
      exact List.eq_of_mem_replicate hv)
  have heval : ecg_delineate (List.replicate 40 0) [5, 35] 200 "cwt"
      (fun _ => List.replicate 5 (List.replicate 40 0)) = .error .indexError :=
    of_decide_eq_true (by with_unfolding_all rfl)
  have hcontra := heval.symm.trans hw
  exact absurd hcontra (by simp)

/-- Claim C3 amended: the all-zero recovery holds for the derivative and
DWT methods (the CWT path excluded): the call returns, raising nothing,
and every feature index list is empty. -/
theorem C3_amended (N sr : ℕ) (rpeaks : List ℤ) (method : String)
    (cwtf : List ℚ → List (List ℚ))
    (hm : pyToLower method = "derivative" ∨ pyToLower method = "gradient" ∨
      pyToLower method = "dwt" ∨ pyToLower method = "discrete wavelet transform") :
    ∃ w, ecg_delineate (List.replicate N 0) rpeaks sr method cwtf = .ok w ∧
      ∀ f ∈ w.2, f.2 = [] := by
  have hderiv : (pyToLower method = "derivative" ∨ pyToLower method = "gradient") →
      ∃ w, ecg_delineate (List.replicate N 0) rpeaks sr method cwtf = .ok w ∧
        ∀ f ∈ w.2, f.2 = [] := by
    intro hcase
    refine ⟨(signal_formatpeaks_sm
        (removeNaN (ecg_delineator_derivative (List.replicate N 0) rpeaks sr))
        (List.replicate N (0 : ℚ)).length,
      removeNaN (ecg_delineator_derivative (List.replicate N 0) rpeaks sr)), ?_, ?_⟩
    · simp only [ecg_delineate, Bind.bind, Except.bind, pure, Except.pure]
      rw [if_pos hcase]
    · intro f hf
      rw [derivative_zero_signal] at hf
      simp only [removeNaN, List.map_cons, List.map_nil,
        filterMap_id_of_map_none] at hf
      simp only [List.mem_cons, List.not_mem_nil, or_false] at hf
      rcases hf with rfl | rfl | rfl | rfl | rfl | rfl <;> rfl
  have hdwt : (pyToLower method = "dwt" ∨
      pyToLower method = "discrete wavelet transform") →
      ¬ (pyToLower method = "derivative" ∨ pyToLower method = "gradient") →
      ¬ (pyToLower method = "cwt" ∨
        pyToLower method = "continuous wavelet transform") →
      ∃ w, ecg_delineate (List.replicate N 0) rpeaks sr method cwtf = .ok w ∧
        ∀ f ∈ w.2, f.2 = [] := by
    intro hcase hn1 hn2
    refine ⟨(signal_formatpeaks_sm
        (removeNaN (dwtEmptyWaves.map (fun f => (f.1, f.2.map some))))
        (List.replicate N (0 : ℚ)).length,
      removeNaN (dwtEmptyWaves.map (fun f => (f.1, f.2.map some)))), ?_, ?_⟩
    · simp only [ecg_delineate, Bind.bind, Except.bind, pure, Except.pure]
      rw [if_neg hn1, if_neg hn2, if_pos hcase, dwt_zero_signal]
    · intro f hf
      simp only [removeNaN, dwtEmptyWaves, List.map_cons, List.map_nil,
        List.filterMap_nil] at hf
      simp only [List.mem_cons, List.not_mem_nil, or_false] at hf
      rcases hf with rfl | rfl | rfl | rfl | rfl | rfl | rfl | rfl <;> rfl
  rcases hm with h | h | h | h
  · exact hderiv (Or.inl h)
  · exact hderiv (Or.inr h)
  · exact hdwt (Or.inl h) (by rw [h]; decide) (by rw [h]; decide)
  · exact hdwt (Or.inr h) (by rw [h]; decide) (by rw [h]; decide)

/-- Witness for the amended claim C3: a 5-sample all-zero signal at 100 Hz
with one R-peak, method dwt. -/
theorem C3_witness :
    ∃ w, ecg_delineate (List.replicate 5 0) [2] 100 "dwt" (fun _ => []) = .ok w ∧
      ∀ f ∈ w.2, f.2 = [] :=
  C3_amended 5 100 [2] "dwt" (fun _ => []) (Or.inr (Or.inr (Or.inl rfl)))

/-- Resampling a peak list with no undefined entry keeps its length. -/
theorem dwt_resample_points_map_some_length (rpeaks : List ℤ) (sr dsr : ℕ) :
    (dwt_resample_points (rpeaks.map some) sr dsr).length = rpeaks.length := by
  simp [dwt_resample_points, List.filterMap_map, Function.comp_def]

/-- Resampling a peak list never lengthens it. -/
theorem dwt_resample_points_length_le (peaks : List (Option ℤ)) (sr dsr : ℕ) :
    (dwt_resample_points peaks sr dsr).length ≤ peaks.length := by
  simp only [dwt_resample_points, List.length_map]
  exact List.length_filterMap_le _ _

/-- The trim structure of the DWT result: inversion of the final list
construction of dwt_ecg_delinator. -/
theorem dwt_trim_structure (ecg : List ℚ) (rpeaks : List ℤ) (sr asr : ℕ)
    (waves : List (String × List ℤ))
    (hok : dwt_ecg_delinator ecg rpeaks sr asr = .ok waves) :
    ∃ tpk ton toff ppk pon poff ron roff : List ℤ,
      waves = [("ECG_T_Peaks", tpk), ("ECG_T_Onsets", ton.dropLast),
        ("ECG_T_Offsets", toff), ("ECG_P_Peaks", ppk.drop 1),
        ("ECG_P_Onsets", pon.drop 1), ("ECG_P_Offsets", poff),
        ("ECG_R_Onsets", ron.drop 1), ("ECG_R_Offsets", roff)] := by
  simp only [dwt_ecg_delinator, Bind.bind, Except.bind] at hok
  split at hok
  next e h1 => exact absurd hok (by simp)
  next tp h1 =>
    split at hok
    next e h2 => exact absurd hok (by simp)
    next qrs h2 =>
      split at hok
      next e h3 => exact absurd hok (by simp)
      next pof h3 =>
        split at hok
        next e h4 => exact absurd hok (by simp)
        next tof h4 =>
          simp only [Except.ok.injEq] at hok
          exact ⟨_, _, _, _, _, _, _, _, hok.symm⟩

/-- Length bound of the T-onset feature of the DWT result: with n R-peaks
there are at most n minus 1 intervals, one onset slot per interval, and the
final trim drops one more, leaving at most n minus 2 T-onsets. -/
theorem dwt_tonsets_length_le (ecg : List ℚ) (rpeaks : List ℤ) (sr : ℕ)
    (waves : List (String × List ℤ))
    (hok : dwt_ecg_delinator ecg rpeaks sr 2000 = .ok waves) :
    ∀ l, ("ECG_T_Onsets", l) ∈ waves → l.length ≤ rpeaks.length - 2 := by
  simp only [dwt_ecg_delinator, Bind.bind, Except.bind] at hok
  split at hok
  next e h1 => exact absurd hok (by simp)
  next tp h1 =>
    split at hok
    next e h2 => exact absurd hok (by simp)
    next qrs h2 =>
      split at hok
      next e h3 => exact absurd hok (by simp)
      next pof h3 =>
        split at hok
        next e h4 => exact absurd hok (by simp)
        next tof h4 =>
          simp only [Except.ok.injEq] at hok
          subst hok
          have hrp : (dwt_resample_points (rpeaks.map some) sr 2000).length
              = rpeaks.length := dwt_resample_points_map_some_length rpeaks sr 2000
          have htp1 : tp.1.length
              = ((dwt_resample_points (rpeaks.map some) sr 2000).zip
                (dwt_resample_points (rpeaks.map some) sr 2000).tail).length := by
            simp only [dwt_delinate_tp_peaks] at h1
            exact (dwtTpPeaksAux_lengths _ _ _ _ _ _ tp.1 tp.2 h1).1
          have hpairs : ((dwt_resample_points (rpeaks.map some) sr 2000).zip
              (dwt_resample_points (rpeaks.map some) sr 2000).tail).length
              = rpeaks.length - 1 := by
            rw [List.length_zip, List.length_tail, hrp]
            omega
          have htof1 : tof.1.length = tp.1.length := by
            simp only [dwt_delinate_tp_onsets_offsets] at h4
            exact (dwtTpOnOffAux_lengths _ _ _ _ _ _ _ tp.1 tof.1 tof.2 h4).1
          have hres : (dwt_resample_points tof.1 2000 sr).length ≤ tof.1.length :=
            dwt_resample_points_length_le tof.1 2000 sr
          intro l hl
          simp only [List.mem_cons, List.not_mem_nil, or_false,
            Prod.mk.injEq] at hl
          rcases hl with ⟨h, -⟩ | ⟨-, rfl⟩ | ⟨h, -⟩ | ⟨h, -⟩ | ⟨h, -⟩ | ⟨h, -⟩
            | ⟨h, -⟩ | ⟨h, -⟩
          · exact absurd h (by decide)
          · rw [List.length_dropLast]
            omega
          · exact absurd h (by decide)
          · exact absurd h (by decide)
          · exact absurd h (by decide)
          · exact absurd h (by decide)
          · exact absurd h (by decide)
          · exact absurd h (by decide)

/-- Claim C2 as stated: the DWT result applies exactly the documented trims
(T-onsets drop the last element, P-peaks, P-onsets and R-onsets drop the
first, the other five lists untrimmed), and a 2500-sample signal at 250 Hz
with 8 evenly spaced R-peaks yields exactly 7 T-onsets. -/
def claimC2 : Prop :=
  (∀ (ecg : List ℚ) (rpeaks : List ℤ) (sr asr : ℕ) (waves : List (String × List ℤ)),
    dwt_ecg_delinator ecg rpeaks sr asr = .ok waves →
    ∃ tpk ton toff ppk pon poff ron roff : List ℤ,
      waves = [("ECG_T_Peaks", tpk), ("ECG_T_Onsets", ton.dropLast),
        ("ECG_T_Offsets", toff), ("ECG_P_Peaks", ppk.drop 1),
        ("ECG_P_Onsets", pon.drop 1), ("ECG_P_Offsets", poff),
        ("ECG_R_Onsets", ron.drop 1), ("ECG_R_Offsets", roff)]) ∧
  (∀ (ecg : List ℚ) (a d : ℤ) (waves : List (String × List ℤ)),
    ecg.length = 2500 → 0 ≤ a → 0 < d → a + 7 * d < 2500 →
    dwt_ecg_delinator ecg ((List.range 8).map (fun i => a + (i : ℤ) * d)) 250 2000
      = .ok waves →
    ∀ l, ("ECG_T_Onsets", l) ∈ waves → l.length = 7)

/-- Claim C2 is false as stated: 8 R-peaks give at most 7 R-R intervals, so
at most 7 T-onset slots before the trim and at most 6 after it; on the
concrete all-zero 2500-sample signal with R-peaks 150, 450, ..., 2250 the
T-onset list is empty, not of length 7. -/
theorem C2_counterexample : ¬ claimC2 := by
  intro hcl
  have h7 := hcl.2 (List.replicate 2500 0) 150 300 dwtEmptyWaves
    (by rw [List.length_replicate]) (by decide) (by decide) (by decide)
    (dwt_zero_signal 2500 _ 250) []
    (by simp [dwtEmptyWaves])
  exact absurd h7 (by decide)

/-- Claim C2 amended: the trim structure is exactly as documented, but the
scenario count is wrong: with 8 evenly spaced R-peaks the T-onset list has
at most 6 entries, never 7, because the onset search yields one slot per
R-R interval (at most 7) and the documented trim then drops one more. -/
theorem C2_amended :
    (∀ (ecg : List ℚ) (rpeaks : List ℤ) (sr asr : ℕ)
      (waves : List (String × List ℤ)),
      dwt_ecg_delinator ecg rpeaks sr asr = .ok waves →
      ∃ tpk ton toff ppk pon poff ron roff : List ℤ,
        waves = [("ECG_T_Peaks", tpk), ("ECG_T_Onsets", ton.dropLast),
          ("ECG_T_Offsets", toff), ("ECG_P_Peaks", ppk.drop 1),
          ("ECG_P_Onsets", pon.drop 1), ("ECG_P_Offsets", poff),
          ("ECG_R_Onsets", ron.drop 1), ("ECG_R_Offsets", roff)]) ∧
    (∀ (ecg : List ℚ) (a d : ℤ) (waves : List (String × List ℤ)),
      ecg.length = 2500 → 0 ≤ a → 0 < d → a + 7 * d < 2500 →
      dwt_ecg_delinator ecg ((List.range 8).map (fun i => a + (i : ℤ) * d)) 250 2000
        = .ok waves →
      ∀ l, ("ECG_T_Onsets", l) ∈ waves → l.length ≤ 6) := by
  constructor
  · exact fun ecg rpeaks sr asr waves hok =>
      dwt_trim_structure ecg rpeaks sr asr waves hok
  · intro ecg a d waves _ _ _ _ hok l hl
    have hb := dwt_tonsets_length_le ecg _ 250 waves hok l hl
    simpa using hb

/-- Witness for the amended claim C2 on the all-zero 2500-sample signal at
250 Hz with R-peaks 150, 450, ..., 2250: the returned T-onset list is
empty, within the corrected bound of 6. -/
theorem C2_witness :
    ∀ l, ("ECG_T_Onsets", l) ∈ dwtEmptyWaves → l.length ≤ 6 := by
  intro l hl
  exact C2_amended.2 (List.replicate 2500 0) 150 300 dwtEmptyWaves
    (by rw [List.length_replicate]) (by decide) (by decide) (by decide)
    (dwt_zero_signal 2500 _ 250) l hl

/-- A filtered index range ends at the greatest satisfying index: the last
element satisfies the predicate and nothing above it does; an empty result
means no index satisfies it. -/
theorem getLast_filter_spec (p : ℕ → Bool) : ∀ n : ℕ,
    (∀ m, ((List.range n).filter p).getLast? = some m →
      p m = true ∧ m < n ∧ ∀ j, m < j → j < n → p j = false) ∧
    (((List.range n).filter p).getLast? = none → ∀ j, j < n → p j = false) := by
  intro n
  induction n with
  | zero => exact ⟨fun m hm => by simp at hm, fun _ j hj => absurd hj (by omega)⟩
  | succ n ih =>
    rw [List.range_succ, List.filter_append]
    cases hp : p n with
    | true =>
      have hfn : List.filter p [n] = [n] := by simp [List.filter, hp]
      rw [hfn, List.getLast?_concat]
      constructor
      · intro m hm
        simp only [Option.some.injEq] at hm
        subst hm
        exact ⟨hp, by omega, fun j h1 h2 => absurd h1 (by omega)⟩
      · intro hm
        exact absurd hm (by simp)
    | false =>
      have hfn : List.filter p [n] = [] := by simp [List.filter, hp]
      rw [hfn, List.append_nil]
      constructor
      · intro m hm
        obtain ⟨h1, h2, h3⟩ := ih.1 m hm
        refine ⟨h1, by omega, fun j hj1 hj2 => ?_⟩
        rcases Nat.lt_or_ge j n with hlt | hge
        · exact h3 j hj1 hlt
        · have : j = n := by omega
          subst this
          exact hp
      · intro hm j hj
        rcases Nat.lt_or_ge j n with hlt | hge
        · exact ih.2 hm j hlt
        · have : j = n := by omega
          subst this
          exact hp

/-- A sample qualifies as a Q candidate of the claim when it is a strict
local maximum of the negated segment and its negated value reaches 5
percent of the segment peak-to-peak amplitude. -/
def qQualifies (seg : List ℚ) (i : ℕ) : Prop :=
  0 < i ∧ i + 1 < seg.length ∧
    -getQ seg (i - 1) < -getQ seg i ∧ -getQ seg (i + 1) < -getQ seg i ∧
    height5pc seg ≤ -getQ seg i

instance (seg : List ℚ) (i : ℕ) : Decidable (qQualifies seg i) := by
  unfold qQualifies
  infer_instance

/-- A sample qualifies as a P candidate of the claim when it is a strict
local maximum of the plain segment and its value reaches 5 percent of the
segment peak-to-peak amplitude. -/
def pQualifies (seg : List ℚ) (i : ℕ) : Prop :=
  0 < i ∧ i + 1 < seg.length ∧
    getQ seg (i - 1) < getQ seg i ∧ getQ seg (i + 1) < getQ seg i ∧
    height5pc seg ≤ getQ seg i

instance (seg : List ℚ) (i : ℕ) : Decidable (pQualifies seg i) := by
  unfold pQualifies
  infer_instance

/-- Reading the negated segment at any position negates the reading. -/
theorem getQ_map_neg (xs : List ℚ) (i : ℕ) :
    getQ (xs.map Neg.neg) i = -getQ xs i := by
  unfold getQ
  simp only [List.getD_eq_getElem?_getD, List.getElem?_map]
  cases xs[i]? <;> simp

/-- The local-maxima detector on the negated segment with the 5 percent
floor of the plain segment computes exactly the Q candidate set. -/
theorem findpeaks_neg_eq_qQualifies (seg : List ℚ) :
    signal_findpeaks_sm (seg.map Neg.neg) (height5pc seg)
      = (List.range seg.length).filter (fun i => decide (qQualifies seg i)) := by
  unfold signal_findpeaks_sm
  rw [List.length_map]
  apply List.filter_congr
  intro i hi
  rw [decide_eq_decide]
  simp [qQualifies, getQ_map_neg, List.length_map]

/-- The local-maxima detector on the plain segment with its own 5 percent
floor computes exactly the P candidate set. -/
theorem findpeaks_eq_pQualifies (seg : List ℚ) :
    signal_findpeaks_sm seg (height5pc seg)
      = (List.range seg.length).filter (fun i => decide (pQualifies seg i)) := by
  unfold signal_findpeaks_sm
  apply List.filter_congr
  intro i hi
  rw [decide_eq_decide]
  simp [pQualifies]

/-- Claim C7: in the derivative method the Q search returns the right-most
strict local maximum of the negated pre-R segment whose negated value
reaches the 5 percent floor; when none exists Q is undefined and P is
undefined with it; when Q is defined at q, the P search returns the
right-most qualifying local maximum of the plain segment strictly before
q, and is undefined exactly when no sample there qualifies. -/
theorem claimC7_characterization (hb : Heartbeat) (r : ℤ) (R : ℕ) :
    (∀ q, (ecg_delineator_derivative_Q r hb R).2 = some q →
      qQualifies (hb.samples.take (hb.anchor + 1)) q ∧
        ∀ j, q < j → ¬ qQualifies (hb.samples.take (hb.anchor + 1)) j) ∧
    ((ecg_delineator_derivative_Q r hb R).2 = none →
      (∀ j, ¬ qQualifies (hb.samples.take (hb.anchor + 1)) j) ∧
        ecg_delineator_derivative_P r hb R none = (none, none)) ∧
    (∀ q, (ecg_delineator_derivative_Q r hb R).2 = some q →
      (∀ p, (ecg_delineator_derivative_P r hb R (some q)).2 = some p →
        pQualifies (hb.samples.take q) p ∧
          ∀ j, p < j → ¬ pQualifies (hb.samples.take q) j) ∧
      ((ecg_delineator_derivative_P r hb R (some q)).2 = none →
        ∀ j, ¬ pQualifies (hb.samples.take q) j)) := by
  set segQ := hb.samples.take (hb.anchor + 1) with hsegQ
  have hspecQ := getLast_filter_spec (fun i => decide (qQualifies segQ i)) segQ.length
  refine ⟨?_, ?_, ?_⟩
  · intro q hq
    simp only [ecg_delineator_derivative_Q, findpeaks_neg_eq_qQualifies, ← hsegQ] at hq
    cases hL : ((List.range segQ.length).filter
        (fun i => decide (qQualifies segQ i))).getLast? with
    | none => rw [hL] at hq; exact absurd hq (by simp)
    | some q' =>
      rw [hL] at hq
      simp only [Option.some.injEq] at hq
      subst hq
      obtain ⟨h1, h2, h3⟩ := hspecQ.1 q' hL
      refine ⟨of_decide_eq_true h1, fun j hj hqj => ?_⟩
      rcases Nat.lt_or_ge j segQ.length with hlt | hge
      · exact absurd (decide_eq_true hqj) (by rw [h3 j hj hlt]; simp)
      · exact absurd hqj.2.1 (by omega)
  · intro hq
    simp only [ecg_delineator_derivative_Q, findpeaks_neg_eq_qQualifies, ← hsegQ] at hq
    cases hL : ((List.range segQ.length).filter
        (fun i => decide (qQualifies segQ i))).getLast? with
    | none =>
      refine ⟨fun j hqj => ?_, rfl⟩
      rcases Nat.lt_or_ge j segQ.length with hlt | hge
      · exact absurd (decide_eq_true hqj) (by rw [hspecQ.2 hL j hlt]; simp)
      · exact absurd hqj.2.1 (by omega)
    | some q' => rw [hL] at hq; exact absurd hq (by simp)
  · intro q hq
    set segP := hb.samples.take q with hsegP
    have hspecP := getLast_filter_spec (fun i => decide (pQualifies segP i)) segP.length
    constructor
    · intro p hp
      simp only [ecg_delineator_derivative_P, findpeaks_eq_pQualifies, ← hsegP] at hp
      cases hL : ((List.range segP.length).filter
          (fun i => decide (pQualifies segP i))).getLast? with
      | none => rw [hL] at hp; exact absurd hp (by simp)
      | some p' =>
        rw [hL] at hp
        simp only [Option.some.injEq] at hp
        subst hp
        obtain ⟨h1, h2, h3⟩ := hspecP.1 p' hL
        refine ⟨of_decide_eq_true h1, fun j hj hpj => ?_⟩
        rcases Nat.lt_or_ge j segP.length with hlt | hge
        · exact absurd (decide_eq_true hpj) (by rw [h3 j hj hlt]; simp)
        · exact absurd hpj.2.1 (by omega)
    · intro hp
      simp only [ecg_delineator_derivative_P, findpeaks_eq_pQualifies, ← hsegP] at hp
      cases hL : ((List.range segP.length).filter
          (fun i => decide (pQualifies segP i))).getLast? with
      | none =>
        intro j hpj
        rcases Nat.lt_or_ge j segP.length with hlt | hge
        · exact absurd (decide_eq_true hpj) (by rw [hspecP.2 hL j hlt]; simp)
        · exact absurd hpj.2.1 (by omega)
      | some p' => rw [hL] at hp; exact absurd hp (by simp)

/-- Witness for claim C7 on a concrete heartbeat: the sample list 0, 5, 0,
-1, 0, 10, 0 with anchor 5 has its Q at position 3 (the dip of value -1)
and its P at position 1 (the bump of value 5), and both characterizations
hold there. -/
theorem C7_witness :
    (ecg_delineator_derivative_Q 100 ⟨[0, 5, 0, -1, 0, 10, 0], 5⟩ 6).2 = some 3 ∧
    qQualifies (List.take 6 [0, 5, 0, -1, 0, 10, 0]) 3 ∧
    ¬ qQualifies (List.take 6 [0, 5, 0, -1, 0, 10, 0]) 4 ∧
    (ecg_delineator_derivative_P 100 ⟨[0, 5, 0, -1, 0, 10, 0], 5⟩ 6 (some 3)).2
      = some 1 ∧
    pQualifies (List.take 3 [0, 5, 0, -1, 0, 10, 0]) 1 := by
  have hq : (ecg_delineator_derivative_Q 100 ⟨[0, 5, 0, -1, 0, 10, 0], 5⟩ 6).2
      = some 3 := of_decide_eq_true (by with_unfolding_all rfl)
  have hp : (ecg_delineator_derivative_P 100 ⟨[0, 5, 0, -1, 0, 10, 0], 5⟩ 6
      (some 3)).2 = some 1 := of_decide_eq_true (by with_unfolding_all rfl)
  have h := claimC7_characterization ⟨[0, 5, 0, -1, 0, 10, 0], 5⟩ 100 6
  exact ⟨hq, (h.1 3 hq).1, (h.1 3 hq).2 4 (by omega), hp,
    ((h.2.2 3 hq).1 1 hp).1⟩

/-- Signal of 60 samples on which the DWT path emits out-of-range indices:
the three R-peaks sit near the right edge, so the P search window start
r0 minus half the rate is far negative and wraps around. -/
def c1ecg : List ℚ :=
  [1, 0, 3, 0, 3, 0, -1, -1, -1, -2, 1, -1, 0, -3, -3, 1, 2, 0, 3, 1,
    0, 0, -1, -3, -1, -1, 2, 0, 0, 2, 1, 3, -1, -3, 3, 3, 0, -3, 0, 2,
    3, 0, 0, -1, 0, 1, -3, 0, -2, -2, -3, -2, 3, 0, -3, 2, -3, -1, -2, -1]

/-- Claim C1 as stated: for every signal, every strictly increasing R-peak
list within bounds, every positive rate and every accepted method, each
defined sample index of every returned feature list lies within the signal
bounds. -/
def claimC1 : Prop :=
  ∀ (ecg : List ℚ) (rpeaks : List ℤ) (sr : ℕ) (method : String)
    (cwtf : List ℚ → List (List ℚ)),
    0 < sr → acceptedMethod method →
    List.Chain' (· < ·) rpeaks → (∀ p ∈ rpeaks, 0 ≤ p ∧ p < (ecg.length : ℤ)) →
    ∀ name l, getFeature (ecg_delineate ecg rpeaks sr method cwtf) name = some l →
    ∀ idx ∈ l, 0 ≤ idx ∧ idx < (ecg.length : ℤ)

set_option maxRecDepth 40000 in
set_option maxHeartbeats 4000000 in
/-- Claim C1 is violated by the code: on the 60-sample signal c1ecg with
R-peaks 53, 55, 57 at 2000 Hz, the dwt method returns the P-peak feature
list holding the index -943, produced by the silent wraparound of the
negative search-window start, far outside the signal bounds. -/
theorem C1_code_bug :
    getFeature (ecg_delineate c1ecg [53, 55, 57] 2000 "dwt" (fun _ => []))
      "ECG_P_Peaks" = some [-943] ∧ ¬ claimC1 := by
  have heval : getFeature (ecg_delineate c1ecg [53, 55, 57] 2000 "dwt" (fun _ => []))
      "ECG_P_Peaks" = some [-943] :=
    of_decide_eq_true (by with_unfolding_all rfl)
  refine ⟨heval, fun hcl => ?_⟩
  have h := hcl c1ecg [53, 55, 57] 2000 "dwt" (fun _ => [])
    (by decide)
    (Or.inr (Or.inr (Or.inr (Or.inr (Or.inl rfl)))))
    (by simp [List.chain'_cons])
    (by decide)
    "ECG_P_Peaks" [-943] heval (-943) (by decide)
  exact absurd h.1 (by decide)

end NeuroKit
